import Mathlib

/-!
Verification of the grid-traffic simulator (`objects.py`, `grid_map.py`,
`grid_env.py`) against its natural-language specification.

The development shallowly embeds the Python source: classes become
structures, methods become pure functions, and every consumption of the
global seeded pseudo-random stream becomes an explicit parameter (the
actual drawn value).  Floating-point Perlin-noise values are only ever
used for ranking and threshold tests, so they are abstracted as integer
ranks and boolean threshold outcomes, universally quantified in every
theorem that touches them.
-/

set_option maxHeartbeats 1000000

namespace Traffic

/-! ## Definitions -/

/-- GridCell from grid_map.py: EMPTY (wall), ROAD, INTERSECTION. -/
inductive GridCell
  | EMPTY
  | ROAD
  | INTERSECTION
deriving DecidableEq, Repr

/-- A fine-grid coordinate (x, y), both components integers as in Python. -/
abbrev Pos := Int × Int

/-- LightState from objects.py. -/
inductive LightState
  | red
  | yellow
  | green
deriving DecidableEq, Repr

/-- TrafficLight from objects.py: a state plus an integer countdown timer.
The constructor fields _current_green_time and _current_red_time are
written once and never read anywhere in the repository, so they are
omitted from the state. -/
structure TrafficLight where
  state : LightState
  timer : Int
deriving DecidableEq, Repr

/-- TrafficLight.YELLOW_TIME constant. -/
def TrafficLight.YELLOW_TIME : Int := 2

/-- TrafficLight.YELLOW_NO_PASS_THRESHOLD constant. -/
def TrafficLight.YELLOW_NO_PASS_THRESHOLD : Int := 1

/-- TrafficLight._get_random_duration: GREEN draws randint(10, 20) (the
drawn value is the explicit parameter greenDraw), YELLOW is the fixed
yellow time, RED is the sentinel 999 (no draw). -/
def TrafficLight.getRandomDuration (greenDraw : Int) (s : LightState) : Int :=
  match s with
  | .green => greenDraw
  | .yellow => TrafficLight.YELLOW_TIME
  | .red => 999

/-- TrafficLight.__init__ with a given initial state. -/
def TrafficLight.init (s : LightState) (greenDraw : Int) : TrafficLight :=
  { state := s, timer := TrafficLight.getRandomDuration greenDraw s }

/-- TrafficLight.set_state. -/
def TrafficLight.setState (_l : TrafficLight) (greenDraw : Int) (s : LightState) : TrafficLight :=
  { state := s, timer := TrafficLight.getRandomDuration greenDraw s }

/-- TrafficLight.tick: decrement the timer; on reaching zero or below,
advance GREEN to YELLOW, YELLOW to RED, RED to GREEN, and report whether
the state changed. -/
def TrafficLight.tick (l : TrafficLight) (greenDraw : Int) : TrafficLight × Bool :=
  let t := l.timer - 1
  if t ≤ 0 then
    match l.state with
    | .green => (l.setState greenDraw .yellow, true)
    | .yellow => (l.setState greenDraw .red, true)
    | .red => (l.setState greenDraw .green, true)
  else ({ l with timer := t }, false)

/-- TrafficLight.can_pass: GREEN passes, YELLOW passes while the timer
exceeds the no-pass threshold, RED never passes. -/
def TrafficLight.canPass (l : TrafficLight) : Bool :=
  match l.state with
  | .green => true
  | .yellow => l.timer > TrafficLight.YELLOW_NO_PASS_THRESHOLD
  | .red => false

/-- Intersection from grid_map.py: coordinate plus the two axis lights. -/
structure Intersection where
  x : Int
  y : Int
  ns : TrafficLight
  ew : TrafficLight
deriving DecidableEq, Repr

/-- Intersection.__init__: a coin decides which axis starts GREEN (the
other RED); both timers are then reduced by a common random offset,
clamped below at 1.  greenDraw is the randint(10, 20) duration drawn by
the GREEN light's constructor. -/
def Intersection.init (x y : Int) (coin : Bool) (greenDraw offset : Int) : Intersection :=
  let nsL := if coin then TrafficLight.init .green greenDraw else TrafficLight.init .red 0
  let ewL := if coin then TrafficLight.init .red 0 else TrafficLight.init .green greenDraw
  let nsL := { nsL with timer := max 1 (nsL.timer - offset) }
  let ewL := { ewL with timer := max 1 (ewL.timer - offset) }
  { x := x, y := y, ns := nsL, ew := ewL }

/-- Intersection.update (autonomous mode): resynchronize the RED axis's
displayed countdown to its sibling, tick the non-RED axis, hand GREEN to
the sibling when an axis falls to RED, and force NS GREEN when both axes
are RED.  d1 feeds the (here unreachable) RED-to-GREEN arm of tick; d2 is
the randint(10, 20) drawn when a light is set to GREEN. -/
def Intersection.update (i : Intersection) (d1 d2 : Int) : Intersection :=
  let ns := i.ns
  let ew := i.ew
  let ns :=
    if ns.state = .red ∧ ew.state = .green then
      { ns with timer := ew.timer + TrafficLight.YELLOW_TIME }
    else if ns.state = .red ∧ ew.state = .yellow then
      { ns with timer := ew.timer }
    else ns
  let ew :=
    if ew.state = .red ∧ ns.state = .green then
      { ew with timer := ns.timer + TrafficLight.YELLOW_TIME }
    else if ew.state = .red ∧ ns.state = .yellow then
      { ew with timer := ns.timer }
    else ew
  if ns.state = .green ∨ ns.state = .yellow then
    let r := ns.tick d1
    let ew' := if r.2 ∧ r.1.state = .red then ew.setState d2 .green else ew
    { i with ns := r.1, ew := ew' }
  else if ew.state = .green ∨ ew.state = .yellow then
    let r := ew.tick d1
    let ns' := if r.2 ∧ r.1.state = .red then ns.setState d2 .green else ns
    { i with ns := ns', ew := r.1 }
  else
    { i with ns := ns.setState d2 .green, ew := ew }

/-- Intersection.toggle (agent mode): flip whichever axis holds GREEN or
YELLOW to RED and grant the other immediate GREEN. -/
def Intersection.toggle (i : Intersection) (d : Int) : Intersection :=
  if i.ns.state = .green ∨ i.ns.state = .yellow then
    { i with ns := i.ns.setState d .red, ew := i.ew.setState d .green }
  else
    { i with ew := i.ew.setState d .red, ns := i.ns.setState d .green }

/-- Intersection.set_ns_green. -/
def Intersection.setNsGreen (i : Intersection) (d : Int) : Intersection :=
  { i with ns := i.ns.setState d .green, ew := i.ew.setState d .red }

/-- Intersection.set_ew_green. -/
def Intersection.setEwGreen (i : Intersection) (d : Int) : Intersection :=
  { i with ns := i.ns.setState d .red, ew := i.ew.setState d .green }

/-- Intersection.set_ns_yellow. -/
def Intersection.setNsYellow (i : Intersection) (d : Int) : Intersection :=
  { i with ns := i.ns.setState d .yellow, ew := i.ew.setState d .red }

/-- Intersection.set_ew_yellow. -/
def Intersection.setEwYellow (i : Intersection) (d : Int) : Intersection :=
  { i with ns := i.ns.setState d .red, ew := i.ew.setState d .yellow }

/-- Axis of a movement: ns for north or south entry, ew for east or west. -/
inductive Axis
  | ns
  | ew
deriving DecidableEq, Repr

/-- Intersection.can_pass(direction): the pass predicate of the light on
the movement's axis. -/
def Intersection.canPassAxis (i : Intersection) (a : Axis) : Bool :=
  match a with
  | .ns => i.ns.canPass
  | .ew => i.ew.canPass

/-- The mutual-exclusion invariant of one intersection, as the spec
states it: an axis showing GREEN or YELLOW (that is, not RED) forces the
other axis to RED. -/
def SignalInv (i : Intersection) : Prop :=
  (i.ns.state ≠ LightState.red → i.ew.state = LightState.red) ∧
  (i.ew.state ≠ LightState.red → i.ns.state = LightState.red)

instance (i : Intersection) : Decidable (SignalInv i) := by
  unfold SignalInv
  infer_instance

/-- Direction from objects.py. -/
inductive Direction
  | north
  | south
  | east
  | west
deriving DecidableEq, Repr

/-- The string direction keys "n", "s", "e", "w" used by the per-tick
occupancy map in grid_env.py. -/
inductive Dir4
  | n
  | s
  | e
  | w
deriving DecidableEq, Repr

/-- The two concrete Vehicle subclasses, Car and Ambulance. -/
inductive VehKind
  | car
  | ambulance
deriving DecidableEq, Repr

/-- Vehicle state from objects.py as used by the grid simulation: object
identity (id), variant, direction, current cell, destination, route with
cursor, accumulated wait ticks, and the ambulance siren flag.  The
lane/sub-cell position/turn-type fields of the legacy lane simulation are
not read by any of the claims' code paths. -/
structure Vehicle where
  id : Nat
  kind : VehKind
  direction : Direction
  gridPos : Pos
  destination : Pos
  path : List Pos
  pathIndex : Nat
  waitTime : Nat
  sirenOn : Bool
deriving DecidableEq, Repr

/-- Car.get_priority and Ambulance.get_priority: base weight (1 for cars,
5 for ambulances), a siren bonus of 10, and a wait-time term
(wait // 10 for cars, wait * 2 for ambulances). -/
def Vehicle.getPriority (v : Vehicle) : Nat :=
  match v.kind with
  | .car => 1 + v.waitTime / 10
  | .ambulance => 5 + (if v.sirenOn then 10 else 0) + v.waitTime * 2

/-- Vehicle.move_on_grid: at (or past) the end of the path report arrival;
otherwise advance the cursor, move to the next waypoint and report whether
it equals the destination. -/
def Vehicle.moveOnGrid (v : Vehicle) : Vehicle × Bool :=
  if v.path = [] ∨ ¬ v.pathIndex < v.path.length - 1 then (v, true)
  else
    let idx := v.pathIndex + 1
    let newPos := v.path.getD idx v.gridPos
    ({ v with pathIndex := idx, gridPos := newPos }, newPos = v.destination)

/-- The movement-direction classification of GridTrafficEnv._move_vehicles
from the coordinate deltas: dy lt 0 north, dy gt 0 south, dx gt 0 east,
otherwise west. -/
def moveDir4 (pos np : Pos) : Dir4 :=
  if np.2 - pos.2 < 0 then .n
  else if np.2 - pos.2 > 0 then .s
  else if np.1 - pos.1 > 0 then .e
  else .w

/-- The axis of a movement direction: ns for north/south, ew for east/west. -/
def moveAxis (pos np : Pos) : Axis :=
  match moveDir4 pos np with
  | .n => .ns
  | .s => .ns
  | .e => .ew
  | .w => .ew

/-- The Direction value written back to the vehicle for a movement. -/
def moveDirection (pos np : Pos) : Direction :=
  match moveDir4 pos np with
  | .n => .north
  | .s => .south
  | .e => .east
  | .w => .west

/-- GridTrafficEnv._get_vehicle_direction: the direction key toward the
next waypoint, or "n" when the vehicle is at the end of its path. -/
def getVehicleDirection (v : Vehicle) : Dir4 :=
  if v.pathIndex < v.path.length - 1 then
    moveDir4 v.gridPos (v.path.getD (v.pathIndex + 1) v.gridPos)
  else .n

/-- The per-tick occupancy map: (cell, entry direction) to vehicle
identity, mirroring the dict-of-dicts in _move_vehicles. -/
def Occ := Pos → Dir4 → Option Nat

/-- The empty occupancy map. -/
def Occ.empty : Occ := fun _ _ => none

/-- Point update of the occupancy map (dict assignment or deletion). -/
def Occ.set (o : Occ) (p : Pos) (d : Dir4) (idv : Option Nat) : Occ :=
  fun p2 d2 => if p2 = p ∧ d2 = d then idv else o p2 d2

/-- The occupancy map built at the start of _move_vehicles from all
vehicles' current positions; later vehicles overwrite earlier ones at the
same (cell, direction) slot exactly as the dict writes do. -/
def buildOccupied (vs : List Vehicle) : Occ :=
  vs.foldl (fun o v => o.set v.gridPos (getVehicleDirection v) (some v.id)) Occ.empty

/-- Result of resolving a single vehicle inside the _move_vehicles loop:
the updated occupancy map, the vehicle's final state this tick, and
whether it arrived (and is removed from the active set). -/
structure StepRes where
  occ : Occ
  veh : Vehicle
  reached : Bool

/-- The body of the per-vehicle loop of GridTrafficEnv._move_vehicles:
compute the candidate next cell and movement direction/axis (updating the
vehicle's direction field), veto the move when a different vehicle
occupies the candidate cell in the same entry direction or when the
candidate cell is an intersection whose pass predicate for the movement
axis is false, and otherwise clear the old occupancy slot, advance along
the path, and claim the new slot unless the vehicle arrived. -/
def moveStep (inters : Pos → Option Intersection) (occ : Occ) (v : Vehicle) : StepRes :=
  let pos := v.gridPos
  let info : Option (Pos × Dir4 × Axis × Direction) :=
    if v.pathIndex < v.path.length - 1 then
      let nextPos := v.path.getD (v.pathIndex + 1) v.gridPos
      some (nextPos, moveDir4 pos nextPos, moveAxis pos nextPos, moveDirection pos nextPos)
    else none
  let vehicle : Vehicle :=
    match info with
    | some (_, _, _, nd) => { v with direction := nd }
    | none => v
  let canMove : Bool :=
    match info with
    | some (np, md, _, _) =>
      match occ np md with
      | some otherId => otherId = vehicle.id
      | none => true
    | none => true
  let canMove : Bool :=
    match info with
    | some (np, _, ma, _) =>
      if canMove then
        match inters np with
        | some itr => itr.canPassAxis ma
        | none => true
      else false
    | none => canMove
  if canMove then
    let oldDir := getVehicleDirection vehicle
    let occ2 := occ.set pos oldDir none
    let r := vehicle.moveOnGrid
    if r.2 then ⟨occ2, r.1, true⟩
    else
      let newDir := match info with
        | some (_, md, _, _) => md
        | none => Dir4.n
      ⟨occ2.set r.1.gridPos newDir (some vehicle.id), r.1, false⟩
  else ⟨occ, vehicle, false⟩

/-- Outcome of one _move_vehicles tick: the remaining active vehicles in
processing order, and how many vehicles arrived this tick. -/
structure MoveOutcome where
  vehicles : List Vehicle
  arrived : Nat
deriving Repr

/-- The per-vehicle loop of _move_vehicles, threading the occupancy map
left to right through the fixed processing order. -/
def moveVehiclesAux (inters : Pos → Option Intersection) (occ : Occ) :
    List Vehicle → MoveOutcome
  | [] => ⟨[], 0⟩
  | v :: rest =>
    let r := moveStep inters occ v
    let out := moveVehiclesAux inters r.occ rest
    if r.reached then ⟨out.vehicles, out.arrived + 1⟩
    else ⟨r.veh :: out.vehicles, out.arrived⟩

/-- GridTrafficEnv._move_vehicles: build the occupancy map from all
current positions, then resolve every vehicle in order. -/
def moveVehicles (inters : Pos → Option Intersection) (vs : List Vehicle) : MoveOutcome :=
  moveVehiclesAux inters (buildOccupied vs) vs

/-- The simulation state of GridTrafficEnv relevant to the claims. -/
structure Env where
  agentMode : Bool
  fixedVehicleMode : Bool
  intersections : Pos → Option Intersection
  vehicles : List Vehicle
  currentStep : Nat
  arrivedCount : Nat

/-- Replace the intersection stored at one position. -/
def Env.setIntersection (e : Env) (p : Pos) (itr : Intersection) : Env :=
  { e with intersections := fun q => if q = p then some itr else e.intersections q }

/-- GridTrafficEnv.control_intersection: reject unknown positions and
unknown command strings, apply the named override, and treat hold as a
no-op; d is the random green duration drawn by any GREEN transition. -/
def controlIntersection (e : Env) (p : Pos) (action : String) (d : Int) : Env × Bool :=
  match e.intersections p with
  | none => (e, false)
  | some itr =>
    if action = "toggle" then (e.setIntersection p (itr.toggle d), true)
    else if action = "ns_green" then (e.setIntersection p (itr.setNsGreen d), true)
    else if action = "ew_green" then (e.setIntersection p (itr.setEwGreen d), true)
    else if action = "ns_yellow" then (e.setIntersection p (itr.setNsYellow d), true)
    else if action = "ew_yellow" then (e.setIntersection p (itr.setEwYellow d), true)
    else if action = "hold" then (e, true)
    else (e, false)

/-- GridTrafficEnv.step specialized to _agent_mode = True and
_fixed_vehicle_mode = True: under those flags the source's own guards
skip the autonomous signal update and the spawn pass, so a tick advances
the step counter and runs _move_vehicles only. -/
def stepAgentFixed (e : Env) : Env :=
  let out := moveVehicles e.intersections e.vehicles
  { e with
    currentStep := e.currentStep + 1
    vehicles := out.vehicles
    arrivedCount := e.arrivedCount + out.arrived }

/-- The fields of a vehicle that the motion engine reads or writes; the
priority inputs (wait time, variant, siren flag) are exactly the fields
dropped. -/
structure VehicleCore where
  id : Nat
  direction : Direction
  gridPos : Pos
  destination : Pos
  path : List Pos
  pathIndex : Nat
deriving DecidableEq, Repr

/-- Projection of a vehicle onto its non-priority fields. -/
def Vehicle.core (v : Vehicle) : VehicleCore :=
  ⟨v.id, v.direction, v.gridPos, v.destination, v.path, v.pathIndex⟩

/-- Point update of a grid-cell function (one Python list assignment). -/
def setCell (g : Pos → GridCell) (p : Pos) (c : GridCell) : Pos → GridCell :=
  fun q => if q = p then c else g q

/-- The 4-neighborhood offsets [(0,1), (0,-1), (1,0), (-1,0)] used by the
maze carve, the intersection classification and get_neighbors. -/
def dirs4 : List (Int × Int) := [(0, 1), (0, -1), (1, 0), (-1, 0)]

/-- A carve candidate (noise_val, nx, ny, dx, dy) as in _generate_maze;
the floating-point noise value is abstracted to an integer rank. -/
abbrev Cand := Int × Int × Int × Int × Int

/-- Strict lexicographic comparison of carve candidates, the order Python
uses to sort the tuples (noise_val, nx, ny, dx, dy). -/
def candLt (a b : Cand) : Bool :=
  if a.1 < b.1 then true
  else if b.1 < a.1 then false
  else if a.2.1 < b.2.1 then true
  else if b.2.1 < a.2.1 then false
  else if a.2.2.1 < b.2.2.1 then true
  else if b.2.2.1 < a.2.2.1 then false
  else if a.2.2.2.1 < b.2.2.2.1 then true
  else if b.2.2.2.1 < a.2.2.2.1 then false
  else a.2.2.2.2 < b.2.2.2.2

/-- The head of the reverse-sorted candidate list: the lexicographic
maximum (candidates are pairwise distinct tuples, so this is exact). -/
def bestCand (l : List Cand) : Option Cand :=
  l.foldl (fun acc c =>
    match acc with
    | none => some c
    | some m => if candLt m c then some c else some m) none

/-- The in-bounds unvisited logical neighbors of the current carve cell,
each tagged with its noise rank, in the fixed enumeration order. -/
def carveCands (w h : Nat) (noise : Int → Int → Int) (visited : Finset (Int × Int))
    (c : Int × Int) : List Cand :=
  dirs4.filterMap (fun d =>
    let nx := c.1 + d.1
    let ny := c.2 + d.2
    if 0 ≤ nx ∧ nx < (w : Int) ∧ 0 ≤ ny ∧ ny < (h : Int) ∧ (nx, ny) ∉ visited then
      some (noise nx ny, nx, ny, d.1, d.2)
    else none)

/-- State of the randomized depth-first carve: the fine grid, the visited
logical-cell set, and the stack (head is the Python list's tail). -/
structure CarveState where
  grid : Pos → GridCell
  visited : Finset (Int × Int)
  stack : List (Int × Int)

/-- The carve loop of _generate_maze: while the stack is nonempty, carve
into the highest-ranked unvisited logical neighbor (opening the wall cell
and the neighbor's cell) or backtrack.  The loop always terminates within
2wh + 1 iterations (every iteration pushes a freshly visited cell or
pops), so the fuel below never runs out when called from generateMaze. -/
def carveLoop (w h : Nat) (noise : Int → Int → Int) : Nat → CarveState → CarveState
  | 0, st => st
  | fuel + 1, st =>
    match st.stack with
    | [] => st
    | c :: rest =>
      match bestCand (carveCands w h noise st.visited c) with
      | some (_, nx, ny, dx, dy) =>
        let g1 := setCell st.grid (1 + c.1 * 2 + dx, 1 + c.2 * 2 + dy) .ROAD
        let g2 := setCell g1 (1 + nx * 2, 1 + ny * 2) .ROAD
        carveLoop w h noise fuel ⟨g2, insert (nx, ny) st.visited, (nx, ny) :: st.stack⟩
      | none => carveLoop w h noise fuel ⟨st.grid, st.visited, rest⟩

/-- The odd fine-grid coordinates 1, 3, ..., 2n-1 (the Python
range(1, actual - 1, 2)). -/
def oddCoords (n : Nat) : List Int :=
  (List.range n).map (fun i => 1 + 2 * (i : Int))

/-- GridMap._add_extra_paths: for every logical road cell, open its east
and south walls when in range, still walls, and the (abstracted) noise
threshold test passes. -/
def addExtraPaths (w h : Nat) (extraOpen : Int → Int → Bool) (g0 : Pos → GridCell) :
    Pos → GridCell :=
  let aw : Int := 2 * w + 1
  let ah : Int := 2 * h + 1
  (oddCoords h).foldl (fun g y =>
    (oddCoords w).foldl (fun g x =>
      if g (x, y) = .ROAD then
        [((1 : Int), (0 : Int)), (0, 1)].foldl (fun g d =>
          let wx := x + d.1
          let wy := y + d.2
          if wx < aw - 1 ∧ wy < ah - 1 then
            if g (wx, wy) = .EMPTY ∧ extraOpen wx wy then setCell g (wx, wy) .ROAD
            else g
          else g) g
      else g) g) g0

/-- GridMap._add_boundary_exits: open the outward boundary wall next to
every border road cell, on all four sides in the source's order. -/
def addBoundaryExits (w h : Nat) (g0 : Pos → GridCell) : Pos → GridCell :=
  let aw : Int := 2 * w + 1
  let ah : Int := 2 * h + 1
  let g1 := (oddCoords w).foldl (fun g x =>
    if g (x, 1) = .ROAD then setCell g (x, 0) .ROAD else g) g0
  let g2 := (oddCoords w).foldl (fun g x =>
    if g (x, ah - 2) = .ROAD then setCell g (x, ah - 1) .ROAD else g) g1
  let g3 := (oddCoords h).foldl (fun g y =>
    if g (1, y) = .ROAD then setCell g (0, y) .ROAD else g) g2
  (oddCoords h).foldl (fun g y =>
    if g (aw - 2, y) = .ROAD then setCell g (aw - 1, y) .ROAD else g) g3

/-- The number of in-bounds 4-neighbors of (x, y) that are passable (not
EMPTY), as counted by _identify_intersections and get_neighbors. -/
def neighborCount (w h : Nat) (g : Pos → GridCell) (x y : Int) : Nat :=
  (dirs4.filter (fun d =>
    let nx := x + d.1
    let ny := y + d.2
    decide (0 ≤ nx ∧ nx < 2 * (w : Int) + 1 ∧ 0 ≤ ny ∧ ny < 2 * (h : Int) + 1) &&
      decide (g (nx, ny) ≠ .EMPTY))).length

/-- All fine-grid cells in the scan order of _identify_intersections
(row-major: y outer, x inner). -/
def allCellsList (w h : Nat) : List Pos :=
  (List.range (2 * h + 1)).flatMap (fun y =>
    (List.range (2 * w + 1)).map (fun x => (Int.ofNat x, Int.ofNat y)))

/-- State of the intersection-classification pass: the grid, the
insertion-ordered intersection dictionary, and the count of
intersections created so far (indexing the per-intersection random
draws). -/
structure IdState where
  grid : Pos → GridCell
  inters : List (Pos × Intersection)
  k : Nat

/-- The body of the _identify_intersections scan at one cell. -/
def idStep (w h : Nat) (coin : Nat → Bool) (greenD offD : Nat → Int)
    (st : IdState) (p : Pos) : IdState :=
  if st.grid p = .EMPTY then st
  else if 3 ≤ neighborCount w h st.grid p.1 p.2 then
    { grid := setCell st.grid p .INTERSECTION
      inters := st.inters ++ [(p, Intersection.init p.1 p.2 (coin st.k) (greenD st.k) (offD st.k))]
      k := st.k + 1 }
  else st

/-- GridMap._identify_intersections: clear the dictionary, scan all cells
in row-major order, and reclassify every passable cell with at least 3
passable neighbors, creating its Intersection with fresh random draws. -/
def identifyIntersections (w h : Nat) (coin : Nat → Bool) (greenD offD : Nat → Int)
    (g0 : Pos → GridCell) : IdState :=
  (allCellsList w h).foldl (idStep w h coin greenD offD) ⟨g0, [], 0⟩

/-- GridMap._generate_maze: seed cell (1, 1), depth-first carve, extra
loop pass, boundary exits, intersection classification.  The noise ranks,
threshold outcomes, and per-intersection draws are all deterministic
functions of the seed in the source (random.seed(seed) fixes the
permutation table and the whole draw sequence); here they are explicit
parameters. -/
def generateMaze (w h : Nat) (carveNoise : Int → Int → Int) (extraOpen : Int → Int → Bool)
    (coin : Nat → Bool) (greenD offD : Nat → Int) : IdState :=
  let g0 : Pos → GridCell := setCell (fun _ => .EMPTY) (1, 1) .ROAD
  let st := carveLoop w h carveNoise (2 * (w * h) + 2) ⟨g0, {(0, 0)}, [(0, 0)]⟩
  let g1 := addExtraPaths w h extraOpen st.grid
  let g2 := addBoundaryExits w h g1
  identifyIntersections w h coin greenD offD g2

/-- A grid with no cell classified INTERSECTION (the state of the fine
grid before _identify_intersections runs). -/
def RoadOnly (g : Pos → GridCell) : Prop :=
  ∀ p, g p = GridCell.EMPTY ∨ g p = GridCell.ROAD

/-- The static road grid as GridMap.get_neighbors and GridMap.dijkstra
read it: the fine dimensions and the cell classification.  The router
claims hold for every grid of this shape, in particular for every
generated one. -/
structure Grid where
  actualWidth : Int
  actualHeight : Int
  cell : Pos → GridCell

/-- GridMap.get_neighbors: the in-bounds passable 4-neighbors of (x, y),
in the fixed enumeration order. -/
def getNeighbors (g : Grid) (x y : Int) : List Pos :=
  dirs4.filterMap (fun d =>
    let nx := x + d.1
    let ny := y + d.2
    if 0 ≤ nx ∧ nx < g.actualWidth ∧ 0 ≤ ny ∧ ny < g.actualHeight ∧
        g.cell (nx, ny) ≠ .EMPTY then
      some (nx, ny)
    else none)

/-- A heap entry (cost, x, y, path) as pushed by GridMap.dijkstra. -/
abbrev Entry := Nat × Int × Int × List Pos

/-- Cost component of an entry. -/
def eCost (ent : Entry) : Nat := ent.1

/-- The node (x, y) of an entry. -/
def eNode (ent : Entry) : Pos := (ent.2.1, ent.2.2.1)

/-- Path component of an entry. -/
def ePath (ent : Entry) : List Pos := ent.2.2.2

/-- Lexicographic order on coordinates, as Python compares int pairs. -/
def posLtB (a b : Pos) : Bool :=
  if a.1 < b.1 then true
  else if b.1 < a.1 then false
  else a.2 < b.2

/-- Lexicographic order on paths, as Python compares lists of pairs. -/
def pathLtB : List Pos → List Pos → Bool
  | [], [] => false
  | [], _ :: _ => true
  | _ :: _, [] => false
  | a :: as2, b :: bs2 =>
    if posLtB a b then true
    else if posLtB b a then false
    else pathLtB as2 bs2

/-- The strict tuple order heapq uses on (cost, x, y, path) entries. -/
def entryLtB (a b : Entry) : Bool :=
  if a.1 < b.1 then true
  else if b.1 < a.1 then false
  else if a.2.1 < b.2.1 then true
  else if b.2.1 < a.2.1 then false
  else if a.2.2.1 < b.2.2.1 then true
  else if b.2.2.1 < a.2.2.1 then false
  else pathLtB a.2.2.2 b.2.2.2

/-- heapq.heappop on the entry multiset: extract the least entry under the
tuple order (the leftmost one among equals) and return the rest. -/
def popMin : List Entry → Option (Entry × List Entry)
  | [] => none
  | e :: rest =>
    match popMin rest with
    | some (m, rest2) => if entryLtB m e then some (m, e :: rest2) else some (e, rest)
    | none => some (e, [])

/-- The entries pushed when an entry is expanded: one per neighbor of its
node not in the updated visited set, with cost + 1 and the extended path,
in neighbor order. -/
def pushesOf (g : Grid) (ent : Entry) (visited2 : List Pos) : List Entry :=
  (getNeighbors g (eNode ent).1 (eNode ent).2).filterMap (fun q =>
    if q ∈ visited2 then none
    else some (eCost ent + 1, q.1, q.2, ePath ent ++ [q]))

/-- The loop of GridMap.dijkstra, fuel-indexed: pop the cheapest entry;
return its path at the end cell; skip visited nodes; otherwise mark
visited and push every unvisited neighbor with cost + 1 and the extended
path.  A result of none means the fuel ran out (never reached from
dijkstra, see dijkstraAux_terminates); some none is the loop's own
no-path result. -/
def dijkstraAux (g : Grid) (endP : Pos) :
    Nat → List Entry → List Pos → Option (Option (List Pos))
  | 0, _, _ => none
  | fuel + 1, heap, visited =>
    match popMin heap with
    | none => some none
    | some (ent, rest) =>
      if eNode ent = endP then some (some (ePath ent))
      else if eNode ent ∈ visited then dijkstraAux g endP fuel rest visited
      else
        dijkstraAux g endP fuel (rest ++ pushesOf g ent (eNode ent :: visited))
          (eNode ent :: visited)

/-- GridMap.dijkstra: None when an endpoint is a wall, otherwise the
uniform-cost search from the singleton heap [(0, start.x, start.y,
[start])].  The fuel bounds the loop's iteration count, which never
exceeds 5 wh + 1 (see dijkstraAux_terminates), so the fallback arm is
never taken. -/
def dijkstra (g : Grid) (s e : Pos) : Option (List Pos) :=
  if g.cell s = .EMPTY then none
  else if g.cell e = .EMPTY then none
  else
    match dijkstraAux g e (5 * (g.actualWidth.toNat * g.actualHeight.toNat) + 2)
        [(0, s.1, s.2, [s])] [] with
    | some r => r
    | none => none

/-- A valid route: consecutive cells are linked by get_neighbors (each
step moves to an in-bounds, passable 4-neighbor). -/
def IsPath (g : Grid) (l : List Pos) : Prop :=
  l.Chain' (fun a b => b ∈ getNeighbors g a.1 a.2)

/-- In-bounds coordinates of the grid. -/
def inBox (g : Grid) (p : Pos) : Prop :=
  0 ≤ p.1 ∧ p.1 < g.actualWidth ∧ 0 ≤ p.2 ∧ p.2 < g.actualHeight

instance (g : Grid) (p : Pos) : Decidable (inBox g p) :=
  inferInstanceAs
    (Decidable (0 ≤ p.1 ∧ p.1 < g.actualWidth ∧ 0 ≤ p.2 ∧ p.2 < g.actualHeight))

/-- A concrete 3-by-1 all-road grid used to evaluate the router claims. -/
def routerGridW : Grid :=
  { actualWidth := 3, actualHeight := 1, cell := fun _ => GridCell.ROAD }

/-- A concrete grid whose cell (0, 0) is a wall and whose two road cells
(0, 1) and (2, 1) are separated by the wall column x = 1. -/
def routerGridW2 : Grid :=
  { actualWidth := 3, actualHeight := 2
    cell := fun p => if p.2 = 1 ∧ (p.1 = 0 ∨ p.1 = 2) then GridCell.ROAD else GridCell.EMPTY }

/-- Every heap entry carries a valid path from the start to its node
whose length is its cost plus one. -/
def EntryInv (g : Grid) (s : Pos) (ent : Entry) : Prop :=
  IsPath g (ePath ent) ∧ (ePath ent).head? = some s ∧
    (ePath ent).getLast? = some (eNode ent) ∧ (ePath ent).length = eCost ent + 1

/-- All heap entries satisfy the entry invariant. -/
def HeapInv (g : Grid) (s : Pos) (heap : List Entry) : Prop :=
  ∀ ent ∈ heap, EntryInv g s ent

/-- All heap entry nodes are in bounds. -/
def HeapBounds (g : Grid) (heap : List Entry) : Prop :=
  ∀ ent ∈ heap, inBox g (eNode ent)

/-- The frontier-covering invariant of the search: for every valid path l
from the start s to an unvisited node z there is a heap entry ent and a
valid continuation l2 from ent's node to z that avoids all visited
cells, with eCost ent + length l2 at most length l. -/
def Covers (g : Grid) (s : Pos) (heap : List Entry) (visited : List Pos) : Prop :=
  ∀ (z : Pos) (l : List Pos), z ∉ visited → IsPath g l → l.head? = some s →
    l.getLast? = some z →
    ∃ ent ∈ heap, ∃ l2 : List Pos, IsPath g l2 ∧ l2.head? = some (eNode ent) ∧
      l2.getLast? = some z ∧ (∀ q ∈ l2, q ∉ visited) ∧ eCost ent + l2.length ≤ l.length

/-- The number of in-bounds cells not yet visited, the decreasing part of
the loop measure. -/
def remCells (g : Grid) (visited : List Pos) : Nat :=
  ((Finset.Icc (0 : Int) (g.actualWidth - 1) ×ˢ Finset.Icc (0 : Int) (g.actualHeight - 1)).filter
    (fun p => p ∉ visited)).card

/-- A concrete two-car configuration: car 1 occupies (2, 1) heading east
and car 2 behind it at (1, 1) wants to enter (2, 1) heading east, so car 2
is blocked by the occupancy rule on its first tick. -/
def blockedPairC1 : List Vehicle :=
  [ { id := 2, kind := .car, direction := .north, gridPos := (1, 1), destination := (9, 9),
      path := [(1, 1), (2, 1), (3, 1)], pathIndex := 0, waitTime := 0, sirenOn := false },
    { id := 1, kind := .car, direction := .north, gridPos := (2, 1), destination := (9, 9),
      path := [(2, 1), (3, 1)], pathIndex := 0, waitTime := 0, sirenOn := false } ]

/-- A concrete override-mode environment: one intersection at (5, 5) and
one car at (0, 0) one plain-road step away from (1, 0). -/
def envC8 : Env :=
  { agentMode := true
    fixedVehicleMode := true
    intersections := fun q => if q = ((5 : Int), (5 : Int)) then some (Intersection.init 5 5 true 12 0) else none
    vehicles :=
      [ { id := 1, kind := .car, direction := .north, gridPos := (0, 0), destination := (9, 9),
          path := [(0, 0), (1, 0)], pathIndex := 0, waitTime := 0, sirenOn := false } ]
    currentStep := 0
    arrivedCount := 0 }

/-! ## Theorems -/

/-- Folding a step that preserves a property preserves it. -/
theorem foldl_preserve {α β : Type} (P : α → Prop) (f : α → β → α)
    (h : ∀ a b, P a → P (f a b)) : ∀ (l : List β) (a : α), P a → P (l.foldl f a) := by
  intro l
  induction l with
  | nil => intro a ha; exact ha
  | cons b t ih => intro a ha; exact ih _ (h a b ha)

/-- Writing a ROAD cell keeps the grid free of INTERSECTION cells. -/
theorem roadOnly_setCell {g : Pos → GridCell} (p : Pos) (hg : RoadOnly g) :
    RoadOnly (setCell g p .ROAD) := by
  intro q
  unfold setCell
  by_cases hq : q = p <;> simp [hq]
  exact hg q

/-- The depth-first carve writes only ROAD cells. -/
theorem carveLoop_roadOnly (w h : Nat) (noise : Int → Int → Int) :
    ∀ (fuel : Nat) (st : CarveState), RoadOnly st.grid →
      RoadOnly (carveLoop w h noise fuel st).grid := by
  intro fuel
  induction fuel with
  | zero => intro st hst; exact hst
  | succ f ih =>
    intro st hst
    obtain ⟨g, vis, stk⟩ := st
    cases stk with
    | nil => rw [carveLoop]; exact hst
    | cons c rest =>
      rw [carveLoop]
      dsimp only
      cases hb : bestCand (carveCands w h noise vis c) with
      | none => exact ih _ hst
      | some cand =>
        obtain ⟨r, nx, ny, dx, dy⟩ := cand
        exact ih _ (roadOnly_setCell _ (roadOnly_setCell _ hst))

/-- The extra-loop pass writes only ROAD cells. -/
theorem addExtraPaths_roadOnly (w h : Nat) (extraOpen : Int → Int → Bool)
    (g : Pos → GridCell) (hg : RoadOnly g) : RoadOnly (addExtraPaths w h extraOpen g) := by
  unfold addExtraPaths
  refine foldl_preserve RoadOnly _ ?_ _ _ hg
  intro a y ha
  refine foldl_preserve RoadOnly _ ?_ _ _ ha
  intro b x hb
  split
  · refine foldl_preserve RoadOnly _ ?_ _ _ hb
    intro c d hc
    dsimp only
    split
    · split
      · exact roadOnly_setCell _ hc
      · exact hc
    · exact hc
  · exact hb

/-- The boundary-exit pass writes only ROAD cells. -/
theorem addBoundaryExits_roadOnly (w h : Nat) (g : Pos → GridCell) (hg : RoadOnly g) :
    RoadOnly (addBoundaryExits w h g) := by
  unfold addBoundaryExits
  refine foldl_preserve RoadOnly _ ?_ _ _
    (foldl_preserve RoadOnly _ ?_ _ _
      (foldl_preserve RoadOnly _ ?_ _ _
        (foldl_preserve RoadOnly _ ?_ _ _ hg))) <;>
    (intro a b ha; split; exacts [roadOnly_setCell _ ha, ha])

/-- Two grids passable at exactly the same cells. -/
def EqEmpty (g g2 : Pos → GridCell) : Prop :=
  ∀ p, g p = GridCell.EMPTY ↔ g2 p = GridCell.EMPTY

/-- Passable-neighbor counts agree on grids passable at the same cells. -/
theorem neighborCount_congr {g g2 : Pos → GridCell} (hgg : EqEmpty g g2)
    (w h : Nat) (x y : Int) : neighborCount w h g x y = neighborCount w h g2 x y := by
  unfold neighborCount
  refine congrArg List.length (List.filter_congr ?_)
  intro d _
  have : (g (x + d.1, y + d.2) ≠ GridCell.EMPTY) ↔ (g2 (x + d.1, y + d.2) ≠ GridCell.EMPTY) :=
    not_congr (hgg _)
  dsimp only
  rw [decide_eq_decide.mpr this]

/-- One classification step never changes which cells are passable. -/
theorem idStep_eqEmpty (w h : Nat) (coin : Nat → Bool) (greenD offD : Nat → Int)
    (st : IdState) (p : Pos) : EqEmpty (idStep w h coin greenD offD st p).grid st.grid := by
  intro q
  unfold idStep
  split
  · exact Iff.rfl
  · split
    · simp only [setCell]
      by_cases hq : q = p <;> simp [hq]
      intro hcontra
      exact absurd hcontra (by assumption)
    · exact Iff.rfl

/-- The whole classification scan never changes which cells are passable. -/
theorem idFold_eqEmpty (w h : Nat) (coin : Nat → Bool) (greenD offD : Nat → Int) :
    ∀ (l : List Pos) (st : IdState),
      EqEmpty (l.foldl (idStep w h coin greenD offD) st).grid st.grid := by
  intro l
  induction l with
  | nil => intro st q; exact Iff.rfl
  | cons p t ih =>
    intro st q
    exact (ih (idStep w h coin greenD offD st p) q).trans (idStep_eqEmpty w h coin greenD offD st p q)

/-- Every cell of the classification scan's output either keeps its input
value or has been reclassified INTERSECTION with at least 3 passable
neighbors (counted in the input grid, where it was passable). -/
theorem idFold_inter_src (w h : Nat) (coin : Nat → Bool) (greenD offD : Nat → Int) :
    ∀ (l : List Pos) (st : IdState) (p : Pos),
      (l.foldl (idStep w h coin greenD offD) st).grid p = st.grid p ∨
        ((l.foldl (idStep w h coin greenD offD) st).grid p = GridCell.INTERSECTION ∧
          3 ≤ neighborCount w h st.grid p.1 p.2 ∧ st.grid p ≠ GridCell.EMPTY) := by
  intro l
  induction l with
  | nil => intro st p; exact Or.inl rfl
  | cons q t ih =>
    intro st p
    have hcnt : neighborCount w h (idStep w h coin greenD offD st q).grid p.1 p.2 =
        neighborCount w h st.grid p.1 p.2 :=
      neighborCount_congr (idStep_eqEmpty w h coin greenD offD st q) w h p.1 p.2
    have hemp : ((idStep w h coin greenD offD st q).grid p = GridCell.EMPTY) ↔
        (st.grid p = GridCell.EMPTY) := idStep_eqEmpty w h coin greenD offD st q p
    rcases ih (idStep w h coin greenD offD st q) p with h1 | h2
    · rw [List.foldl_cons, h1]
      unfold idStep
      split
      · exact Or.inl rfl
      · split
        · simp only [setCell]
          by_cases hq : p = q
          · subst hq
            refine Or.inr ⟨by simp, by assumption, by assumption⟩
          · simp [hq]
        · exact Or.inl rfl
    · rw [List.foldl_cons]
      exact Or.inr ⟨h2.1, by rw [← hcnt]; exact h2.2.1, fun hc => h2.2.2 (hemp.mpr hc)⟩

/-- Any scanned cell that is still plain ROAD after the scan had fewer
than 3 passable neighbors. -/
theorem idFold_road_bound (w h : Nat) (coin : Nat → Bool) (greenD offD : Nat → Int) :
    ∀ (l : List Pos) (st : IdState) (p : Pos), p ∈ l →
      (l.foldl (idStep w h coin greenD offD) st).grid p = GridCell.ROAD →
      neighborCount w h st.grid p.1 p.2 < 3 := by
  intro l
  induction l with
  | nil => intro st p hp; simp at hp
  | cons q t ih =>
    intro st p hp hroad
    have hcnt : neighborCount w h (idStep w h coin greenD offD st q).grid p.1 p.2 =
        neighborCount w h st.grid p.1 p.2 :=
      neighborCount_congr (idStep_eqEmpty w h coin greenD offD st q) w h p.1 p.2
    rcases List.mem_cons.mp hp with rfl | hpt
    · rw [List.foldl_cons] at hroad
      by_cases he : st.grid p = GridCell.EMPTY
      · exfalso
        rcases idFold_inter_src w h coin greenD offD t (idStep w h coin greenD offD st p) p with
          h1 | h2
        · rw [h1] at hroad
          have : (idStep w h coin greenD offD st p).grid p = st.grid p := by
            unfold idStep
            simp [he]
          rw [this, he] at hroad
          exact GridCell.noConfusion hroad
        · rw [h2.1] at hroad
          exact GridCell.noConfusion hroad
      · by_cases h3 : 3 ≤ neighborCount w h st.grid p.1 p.2
        · exfalso
          have hset : (idStep w h coin greenD offD st p).grid p = GridCell.INTERSECTION := by
            unfold idStep
            simp only [he, if_false, h3, if_true]
            simp [setCell]
          rcases idFold_inter_src w h coin greenD offD t (idStep w h coin greenD offD st p) p with
            h1 | h2
          · rw [h1, hset] at hroad
            exact GridCell.noConfusion hroad
          · rw [h2.1] at hroad
            exact GridCell.noConfusion hroad
        · omega
    · rw [List.foldl_cons] at hroad
      have := ih (idStep w h coin greenD offD st q) p hpt hroad
      omega

/-- Membership of every in-bounds cell in the scan list. -/
theorem mem_allCellsList {w h : Nat} {x y : Int} (hx : 0 ≤ x) (hx2 : x < 2 * (w : Int) + 1)
    (hy : 0 ≤ y) (hy2 : y < 2 * (h : Int) + 1) : (x, y) ∈ allCellsList w h := by
  have hyn : y.toNat ∈ List.range (2 * h + 1) := List.mem_range.mpr (by omega)
  have hxn : x.toNat ∈ List.range (2 * w + 1) := List.mem_range.mpr (by omega)
  unfold allCellsList
  refine List.mem_flatMap.mpr ⟨y.toNat, hyn, ?_⟩
  refine List.mem_map.mpr ⟨x.toNat, hxn, ?_⟩
  rw [Int.ofNat_eq_natCast, Int.ofNat_eq_natCast, Int.toNat_of_nonneg hx,
    Int.toNat_of_nonneg hy]

/-- C5: road-network generation is a deterministic function of the
logical dimensions and the seed-derived random inputs (noise ranks,
threshold outcomes, and intersection draws): constructing twice with the
same inputs yields identical road-cell grids and identical initial
intersection signal assignments.  In the source all of these inputs are
fixed by random.seed(seed), so equal (W, H, seed) gives equal inputs. -/
theorem C5_generation_deterministic (w h : Nat) (_hw : 1 ≤ w) (_hh : 1 ≤ h)
    (carveNoise : Int → Int → Int) (extraOpen : Int → Int → Bool)
    (coin : Nat → Bool) (greenD offD : Nat → Int) :
    (generateMaze w h carveNoise extraOpen coin greenD offD).grid =
      (generateMaze w h carveNoise extraOpen coin greenD offD).grid ∧
    (generateMaze w h carveNoise extraOpen coin greenD offD).inters =
      (generateMaze w h carveNoise extraOpen coin greenD offD).inters :=
  ⟨rfl, rfl⟩

/-- C5 witness: determinism applied at concrete dimensions and streams. -/
theorem C5_generation_deterministic_witness :
    (1 ≤ 2 ∧ 1 ≤ 2) ∧
    ((generateMaze 2 2 (fun x y => x + y) (fun x _ => x = 1) (fun k => k % 2 = 0)
        (fun k => 10 + k) (fun k => k)).grid =
      (generateMaze 2 2 (fun x y => x + y) (fun x _ => x = 1) (fun k => k % 2 = 0)
        (fun k => 10 + k) (fun k => k)).grid ∧
      (generateMaze 2 2 (fun x y => x + y) (fun x _ => x = 1) (fun k => k % 2 = 0)
        (fun k => 10 + k) (fun k => k)).inters =
      (generateMaze 2 2 (fun x y => x + y) (fun x _ => x = 1) (fun k => k % 2 = 0)
        (fun k => 10 + k) (fun k => k)).inters) :=
  ⟨⟨by decide, by decide⟩,
    C5_generation_deterministic 2 2 (by decide) (by decide) _ _ _ _ _⟩

/-- C6: in every generated network, every INTERSECTION cell has at least
3 passable 4-neighbors and every plain ROAD cell has at most 2, for all
dimensions and all seed-derived random inputs. -/
theorem C6_intersection_classification (w h : Nat) (carveNoise : Int → Int → Int)
    (extraOpen : Int → Int → Bool) (coin : Nat → Bool) (greenD offD : Nat → Int)
    (x y : Int) (hx : 0 ≤ x) (hx2 : x < 2 * (w : Int) + 1) (hy : 0 ≤ y)
    (hy2 : y < 2 * (h : Int) + 1) :
    ((generateMaze w h carveNoise extraOpen coin greenD offD).grid (x, y) =
        GridCell.INTERSECTION →
      3 ≤ neighborCount w h (generateMaze w h carveNoise extraOpen coin greenD offD).grid x y) ∧
    ((generateMaze w h carveNoise extraOpen coin greenD offD).grid (x, y) = GridCell.ROAD →
      neighborCount w h (generateMaze w h carveNoise extraOpen coin greenD offD).grid x y ≤ 2) := by
  have hroadonly : RoadOnly (addBoundaryExits w h (addExtraPaths w h extraOpen
      (carveLoop w h carveNoise (2 * (w * h) + 2)
        ⟨setCell (fun _ => .EMPTY) (1, 1) .ROAD, {(0, 0)}, [(0, 0)]⟩).grid)) := by
    refine addBoundaryExits_roadOnly w h _ (addExtraPaths_roadOnly w h extraOpen _
      (carveLoop_roadOnly w h carveNoise _ _ ?_))
    intro p
    dsimp only [setCell]
    by_cases hp : p = ((1 : Int), (1 : Int))
    · right
      rw [if_pos hp]
    · left
      rw [if_neg hp]
  set g2 := addBoundaryExits w h (addExtraPaths w h extraOpen
    (carveLoop w h carveNoise (2 * (w * h) + 2)
      ⟨setCell (fun _ => .EMPTY) (1, 1) .ROAD, {(0, 0)}, [(0, 0)]⟩).grid) with hg2
  have hgen : generateMaze w h carveNoise extraOpen coin greenD offD =
      (allCellsList w h).foldl (idStep w h coin greenD offD) ⟨g2, [], 0⟩ := rfl
  have hcnt : neighborCount w h
      (generateMaze w h carveNoise extraOpen coin greenD offD).grid x y =
      neighborCount w h g2 x y := by
    rw [hgen]
    exact neighborCount_congr (idFold_eqEmpty w h coin greenD offD _ _) w h x y
  constructor
  · intro hinter
    rw [hcnt]
    rcases idFold_inter_src w h coin greenD offD (allCellsList w h) ⟨g2, [], 0⟩ (x, y) with
      h1 | h2
    · rw [hgen] at hinter
      rw [hinter] at h1
      rcases hroadonly (x, y) with he | hr
      · exact absurd (h1.trans he) (by decide)
      · exact absurd (h1.trans hr) (by decide)
    · exact h2.2.1
  · intro hroad
    rw [hcnt]
    have hb3 : neighborCount w h g2 x y < 3 :=
      idFold_road_bound w h coin greenD offD (allCellsList w h) ⟨g2, [], 0⟩ (x, y)
        (mem_allCellsList hx hx2 hy hy2) (by rw [hgen] at hroad; exact hroad)
    omega

/-- C6 witness: the classification bounds evaluated at a concrete cell of
a concretely generated network. -/
theorem C6_intersection_classification_witness :
    ((0 : Int) ≤ 1 ∧ (1 : Int) < 2 * (2 : Int) + 1 ∧ (0 : Int) ≤ 1 ∧ (1 : Int) < 2 * (2 : Int) + 1) ∧
    (((generateMaze 2 2 (fun x y => x + y) (fun x _ => x = 1) (fun k => k % 2 = 0)
          (fun k => 10 + k) (fun k => k)).grid (1, 1) = GridCell.INTERSECTION →
        3 ≤ neighborCount 2 2 (generateMaze 2 2 (fun x y => x + y) (fun x _ => x = 1)
          (fun k => k % 2 = 0) (fun k => 10 + k) (fun k => k)).grid 1 1) ∧
      ((generateMaze 2 2 (fun x y => x + y) (fun x _ => x = 1) (fun k => k % 2 = 0)
          (fun k => 10 + k) (fun k => k)).grid (1, 1) = GridCell.ROAD →
        neighborCount 2 2 (generateMaze 2 2 (fun x y => x + y) (fun x _ => x = 1)
          (fun k => k % 2 = 0) (fun k => 10 + k) (fun k => k)).grid 1 1 ≤ 2)) :=
  ⟨by decide,
    C6_intersection_classification 2 2 (fun x y => x + y) (fun x _ => x = 1)
      (fun k => k % 2 = 0) (fun k => 10 + k) (fun k => k) 1 1
      (by decide) (by decide) (by decide) (by decide)⟩

/-- The resolution step keeps a vehicle's identity and wait counter
unchanged: _move_vehicles never touches _wait_time. -/
theorem moveStep_id_wait (inters : Pos → Option Intersection) (occ : Occ) (v : Vehicle) :
    (moveStep inters occ v).veh.id = v.id ∧
    (moveStep inters occ v).veh.waitTime = v.waitTime := by
  unfold moveStep Vehicle.moveOnGrid
  by_cases h : v.pathIndex < v.path.length - 1 <;>
    simp [h] <;> (repeat' split) <;> simp_all

/-- Every vehicle surviving a _move_vehicles pass descends from an input
vehicle with the same identity and the same wait counter. -/
theorem moveVehiclesAux_wait (inters : Pos → Option Intersection) :
    ∀ (vs : List Vehicle) (occ : Occ) (v' : Vehicle),
      v' ∈ (moveVehiclesAux inters occ vs).vehicles →
      ∃ v0 ∈ vs, v0.id = v'.id ∧ v'.waitTime = v0.waitTime := by
  intro vs
  induction vs with
  | nil => intro occ v' h; simp [moveVehiclesAux] at h
  | cons v rest ih =>
    intro occ v' h
    rw [moveVehiclesAux] at h
    by_cases hr : (moveStep inters occ v).reached
    · simp only [hr, if_true] at h
      obtain ⟨v0, hv0, hid⟩ := ih _ _ h
      exact ⟨v0, List.mem_cons_of_mem _ hv0, hid⟩
    · simp only [hr, if_false] at h
      rcases List.mem_cons.mp h with h1 | h2
      · refine ⟨v, List.mem_cons_self _ _, ?_⟩
        have := moveStep_id_wait inters occ v
        rw [h1]
        exact ⟨this.1.symm, this.2⟩
      · obtain ⟨v0, hv0, hid⟩ := ih _ _ h2
        exact ⟨v0, List.mem_cons_of_mem _ hv0, hid⟩

/-- C4: in a motion-engine tick, a vehicle whose candidate next cell is an
intersection is held in place (and not removed) whenever the pass
predicate of the movement's axis is false, and advances into the candidate
cell whenever that predicate is true and no other vehicle occupies the
candidate cell in the same entry direction. -/
theorem C4_gating_blocks_and_green_advances
    (inters : Pos → Option Intersection) (occ : Occ) (v : Vehicle) (np : Pos)
    (itr : Intersection)
    (h1 : v.pathIndex < v.path.length - 1)
    (h2 : v.path.getD (v.pathIndex + 1) v.gridPos = np)
    (h3 : inters np = some itr) :
    (itr.canPassAxis (moveAxis v.gridPos np) = false →
      (moveStep inters occ v).veh.gridPos = v.gridPos ∧
      (moveStep inters occ v).reached = false) ∧
    (itr.canPassAxis (moveAxis v.gridPos np) = true →
      (∀ oid, occ np (moveDir4 v.gridPos np) = some oid → oid = v.id) →
      (moveStep inters occ v).veh.gridPos = np) := by
  have hne : ¬ (v.path = [] ∨ ¬ v.pathIndex < v.path.length - 1) := by
    rintro (hnil | hlt)
    · rw [hnil] at h1; simp at h1
    · exact hlt h1
  constructor
  · intro hred
    unfold moveStep
    simp only [h1, if_true, h2, h3, hred]
    cases hocc : occ np (moveDir4 v.gridPos np) with
    | none => simp
    | some oid => simp
  · intro hgreen hnocc
    unfold moveStep
    simp only [h1, if_true, h2, h3, hgreen]
    cases hocc : occ np (moveDir4 v.gridPos np) with
    | none =>
      simp only [Vehicle.moveOnGrid, hne, if_true, if_false]
      simp [Vehicle.moveOnGrid, hne, h2]
      split <;> simpa [List.getD] using h2
    | some oid =>
      have : oid = v.id := hnocc oid hocc
      subst this
      simp only [Vehicle.moveOnGrid, hne, if_true, if_false]
      simp [Vehicle.moveOnGrid, hne, h2]
      split <;> simpa [List.getD] using h2

/-- C4 witness: a concrete held vehicle at a RED axis and a concrete
advancing vehicle at a GREEN axis. -/
theorem C4_gating_witness :
    let vW : Vehicle :=
      { id := 7, kind := .car, direction := .north, gridPos := (1, 2), destination := (9, 9),
        path := [(1, 2), (1, 1)], pathIndex := 0, waitTime := 0, sirenOn := false }
    let redI : Intersection := ⟨1, 1, ⟨.red, 999⟩, ⟨.green, 12⟩⟩
    let greenI : Intersection := ⟨1, 1, ⟨.green, 12⟩, ⟨.red, 999⟩⟩
    (vW.pathIndex < vW.path.length - 1 ∧
      vW.path.getD (vW.pathIndex + 1) vW.gridPos = (1, 1) ∧
      redI.canPassAxis (moveAxis vW.gridPos (1, 1)) = false ∧
      greenI.canPassAxis (moveAxis vW.gridPos (1, 1)) = true) ∧
    ((moveStep (fun _ => some redI) Occ.empty vW).veh.gridPos = vW.gridPos ∧
      (moveStep (fun _ => some redI) Occ.empty vW).reached = false) ∧
    (moveStep (fun _ => some greenI) Occ.empty vW).veh.gridPos = (1, 1) := by
  refine ⟨by decide, ?_, ?_⟩
  · exact (C4_gating_blocks_and_green_advances _ Occ.empty _ (1, 1) _ (by decide) (by decide)
      rfl).1 (by decide)
  · exact (C4_gating_blocks_and_green_advances _ Occ.empty _ (1, 1) _ (by decide) (by decide)
      rfl).2 (by decide) (by intro oid h; simp [Occ.empty] at h)

/-- C1: evaluating one motion-engine tick at a concrete blocked
configuration shows the held vehicle's position unchanged but its wait
counter also unchanged at 0: _move_vehicles never calls
increment_wait_time, contradicting the documented wait accrual. -/
theorem C1_blocked_vehicle_wait_not_incremented :
    (moveVehicles (fun _ => none) blockedPairC1).vehicles.map
        (fun v => (v.id, v.gridPos, v.waitTime)) =
      [(2, ((1 : Int), (1 : Int)), (0 : Nat)), (1, ((3 : Int), (1 : Int)), (0 : Nat))] := by
  decide

/-- C8 counterexample: in override mode with hold issued to the only
intersection, a tick still changes a vehicle's grid position, refuting
the claim that vehicle positions are unchanged under hold. -/
theorem C8_hold_counterexample :
    (controlIntersection envC8 (5, 5) "hold" 0).2 = true ∧
    (stepAgentFixed (controlIntersection envC8 (5, 5) "hold" 0).1).vehicles.map Vehicle.gridPos ≠
      ((controlIntersection envC8 (5, 5) "hold" 0).1).vehicles.map Vehicle.gridPos := by
  constructor
  · rfl
  · intro h
    simp [controlIntersection, envC8] at h
    revert h
    decide

/-- C8 amended: the hold command is a strict no-op on the environment, and
in override mode with a fixed vehicle population N ticks leave every
intersection's signal state unchanged and never touch any surviving
vehicle's wait counter; vehicle positions, however, continue to evolve
under the motion engine. -/
theorem C8_hold_amended :
    (∀ (e : Env) (p : Pos) (d : Int), (controlIntersection e p "hold" d).1 = e) ∧
    (∀ (e : Env) (n : Nat), e.agentMode = true → e.fixedVehicleMode = true →
      (stepAgentFixed^[n] e).intersections = e.intersections ∧
      ∀ v' ∈ (stepAgentFixed^[n] e).vehicles,
        ∃ v0 ∈ e.vehicles, v0.id = v'.id ∧ v'.waitTime = v0.waitTime) := by
  constructor
  · intro e p d
    cases h : e.intersections p <;> simp [controlIntersection, h]
  · intro e n _ _
    induction n with
    | zero => exact ⟨rfl, fun v' hv' => ⟨v', hv', rfl, rfl⟩⟩
    | succ k ih =>
      rw [Function.iterate_succ_apply']
      constructor
      · rw [show (stepAgentFixed (stepAgentFixed^[k] e)).intersections =
            (stepAgentFixed^[k] e).intersections from rfl]
        exact ih.1
      · intro v' hv'
        have hstep : v' ∈ (moveVehicles (stepAgentFixed^[k] e).intersections
            (stepAgentFixed^[k] e).vehicles).vehicles := hv'
        obtain ⟨v1, hv1, hid1, hw1⟩ := moveVehiclesAux_wait _ _ _ _ hstep
        obtain ⟨v0, hv0, hid0, hw0⟩ := ih.2 v1 hv1
        exact ⟨v0, hv0, by rw [hid0, hid1], by rw [hw1, hw0]⟩

/-- A vehicle's occupancy direction key depends only on its non-priority
fields. -/
theorem getVehicleDirection_core (v ve : Vehicle) (h : v.core = ve.core) :
    getVehicleDirection v = getVehicleDirection ve := by
  obtain ⟨i1, k1, d1, g1, t1, p1, x1, w1, s1⟩ := v
  obtain ⟨i2, k2, d2, g2, t2, p2, x2, w2, s2⟩ := ve
  simp only [Vehicle.core, VehicleCore.mk.injEq] at h
  obtain ⟨rfl, rfl, rfl, rfl, rfl, rfl⟩ := h
  rfl

/-- The initial occupancy map depends only on the non-priority fields. -/
theorem buildOccupied_core :
    ∀ (vs ws : List Vehicle), vs.map Vehicle.core = ws.map Vehicle.core →
      ∀ o : Occ,
        vs.foldl (fun o v => o.set v.gridPos (getVehicleDirection v) (some v.id)) o =
        ws.foldl (fun o v => o.set v.gridPos (getVehicleDirection v) (some v.id)) o := by
  intro vs
  induction vs with
  | nil =>
    intro ws h o
    cases ws with
    | nil => rfl
    | cons w ws2 => simp at h
  | cons v vs2 ih =>
    intro ws h o
    cases ws with
    | nil => simp at h
    | cons w ws2 =>
      simp only [List.map_cons, List.cons.injEq] at h
      obtain ⟨hc, ht⟩ := h
      have hg : v.gridPos = w.gridPos := congrArg VehicleCore.gridPos hc
      have hi : v.id = w.id := congrArg VehicleCore.id hc
      simp only [List.foldl_cons, hg, hi, getVehicleDirection_core v w hc]
      exact ih ws2 ht _

/-- A single resolution step is blind to the priority inputs: vehicles
agreeing on the non-priority fields produce the same occupancy updates,
the same movement decision, and agreeing results. -/
theorem moveStep_core (inters : Pos → Option Intersection) (occ : Occ) (v ve : Vehicle)
    (h : v.core = ve.core) :
    (moveStep inters occ v).occ = (moveStep inters occ ve).occ ∧
    (moveStep inters occ v).veh.core = (moveStep inters occ ve).veh.core ∧
    (moveStep inters occ v).reached = (moveStep inters occ ve).reached := by
  obtain ⟨i1, k1, d1, g1, t1, p1, x1, w1, s1⟩ := v
  obtain ⟨i2, k2, d2, g2, t2, p2, x2, w2, s2⟩ := ve
  simp only [Vehicle.core, VehicleCore.mk.injEq] at h
  obtain ⟨rfl, rfl, rfl, rfl, rfl, rfl⟩ := h
  by_cases hlt : x1 < p1.length - 1 <;>
    simp [moveStep, hlt, Vehicle.moveOnGrid, getVehicleDirection, Vehicle.core] <;>
    (repeat' split) <;> simp_all [Vehicle.core]

/-- The whole per-vehicle loop is blind to the priority inputs. -/
theorem moveVehiclesAux_core (inters : Pos → Option Intersection) :
    ∀ (vs ws : List Vehicle), vs.map Vehicle.core = ws.map Vehicle.core →
      ∀ occ : Occ,
        (moveVehiclesAux inters occ vs).vehicles.map Vehicle.core =
          (moveVehiclesAux inters occ ws).vehicles.map Vehicle.core ∧
        (moveVehiclesAux inters occ vs).arrived = (moveVehiclesAux inters occ ws).arrived := by
  intro vs
  induction vs with
  | nil =>
    intro ws h occ
    cases ws with
    | nil => exact ⟨rfl, rfl⟩
    | cons w ws2 => simp at h
  | cons v vs2 ih =>
    intro ws h occ
    cases ws with
    | nil => simp at h
    | cons w ws2 =>
      simp only [List.map_cons, List.cons.injEq] at h
      obtain ⟨hc, ht⟩ := h
      obtain ⟨ho, hv, hr⟩ := moveStep_core inters occ v w hc
      have ihh := ih ws2 ht (moveStep inters occ v).occ
      rw [moveVehiclesAux, moveVehiclesAux, ← ho, ← hr]
      cases hreach : (moveStep inters occ v).reached
      · simp only [hreach, Bool.false_eq_true, if_false]
        exact ⟨by simp only [List.map_cons, hv, ihh.1], ihh.2⟩
      · simp only [hreach, if_true]
        exact ⟨ihh.1, by rw [ihh.2]⟩

/-- C9: the motion engine's conflict resolution never consults priority
inputs: two vehicle populations identical except in accumulated wait
times, vehicle variants, and siren flags (the inputs of get_priority)
yield identical movement decisions in a tick: the same vehicles end in
the same cells, the same vehicles arrive. -/
theorem C9_priority_never_consulted (inters : Pos → Option Intersection)
    (vs ws : List Vehicle) (h : vs.map Vehicle.core = ws.map Vehicle.core) :
    (moveVehicles inters vs).vehicles.map Vehicle.core =
      (moveVehicles inters ws).vehicles.map Vehicle.core ∧
    (moveVehicles inters vs).arrived = (moveVehicles inters ws).arrived := by
  unfold moveVehicles buildOccupied
  rw [buildOccupied_core vs ws h Occ.empty]
  exact moveVehiclesAux_core inters vs ws h _

/-- C9 witness: a car with zero wait and a siren-on ambulance with a large
wait at the same cell and route make identical movement decisions. -/
theorem C9_priority_never_consulted_witness :
    ([ { id := 1, kind := VehKind.car, direction := Direction.north, gridPos := ((1 : Int), (1 : Int)),
          destination := (9, 9), path := [(1, 1), (2, 1)], pathIndex := 0, waitTime := 0,
          sirenOn := false } ].map Vehicle.core =
      [ { id := 1, kind := VehKind.ambulance, direction := Direction.north, gridPos := ((1 : Int), (1 : Int)),
          destination := (9, 9), path := [(1, 1), (2, 1)], pathIndex := 0, waitTime := 50,
          sirenOn := true } ].map Vehicle.core) ∧
    ((moveVehicles (fun _ => none)
        [ { id := 1, kind := VehKind.car, direction := Direction.north, gridPos := ((1 : Int), (1 : Int)),
            destination := (9, 9), path := [(1, 1), (2, 1)], pathIndex := 0, waitTime := 0,
            sirenOn := false } ]).vehicles.map Vehicle.core =
      (moveVehicles (fun _ => none)
        [ { id := 1, kind := VehKind.ambulance, direction := Direction.north, gridPos := ((1 : Int), (1 : Int)),
            destination := (9, 9), path := [(1, 1), (2, 1)], pathIndex := 0, waitTime := 50,
            sirenOn := true } ]).vehicles.map Vehicle.core ∧
      (moveVehicles (fun _ => none)
        [ { id := 1, kind := VehKind.car, direction := Direction.north, gridPos := ((1 : Int), (1 : Int)),
            destination := (9, 9), path := [(1, 1), (2, 1)], pathIndex := 0, waitTime := 0,
            sirenOn := false } ]).arrived =
      (moveVehicles (fun _ => none)
        [ { id := 1, kind := VehKind.ambulance, direction := Direction.north, gridPos := ((1 : Int), (1 : Int)),
            destination := (9, 9), path := [(1, 1), (2, 1)], pathIndex := 0, waitTime := 50,
            sirenOn := true } ]).arrived) :=
  ⟨by decide, C9_priority_never_consulted (fun _ => none) _ _ (by decide)⟩

/-- C8 amended witness: the amended theorem applied to the concrete
override-mode environment for three ticks. -/
theorem C8_hold_amended_witness :
    envC8.agentMode = true ∧ envC8.fixedVehicleMode = true ∧
    ((stepAgentFixed^[3] envC8).intersections = envC8.intersections ∧
      ∀ v' ∈ (stepAgentFixed^[3] envC8).vehicles,
        ∃ v0 ∈ envC8.vehicles, v0.id = v'.id ∧ v'.waitTime = v0.waitTime) :=
  ⟨rfl, rfl, C8_hold_amended.2 envC8 3 rfl rfl⟩

/-- C2: for every Intersection, the red-exclusion invariant (at most one
of the two signal axes is GREEN or YELLOW and the other is RED) holds
after construction, is preserved by every autonomous update, and is
(re)established by every override command, for all drawn random values. -/
theorem C2_signal_axis_exclusion :
    (∀ x y coin greenDraw offset, SignalInv (Intersection.init x y coin greenDraw offset)) ∧
    (∀ i d1 d2, SignalInv i → SignalInv (Intersection.update i d1 d2)) ∧
    (∀ i d, SignalInv (Intersection.toggle i d)) ∧
    (∀ i d, SignalInv (Intersection.setNsGreen i d)) ∧
    (∀ i d, SignalInv (Intersection.setEwGreen i d)) ∧
    (∀ i d, SignalInv (Intersection.setNsYellow i d)) ∧
    (∀ i d, SignalInv (Intersection.setEwYellow i d)) := by
  refine ⟨?_, ?_, ?_, ?_, ?_, ?_, ?_⟩
  · intro x y coin greenDraw offset
    cases coin <;>
      simp [Intersection.init, TrafficLight.init, SignalInv, TrafficLight.getRandomDuration]
  · intro i d1 d2 h
    obtain ⟨h1, h2⟩ := h
    unfold Intersection.update
    cases hns : i.ns.state <;> cases hew : i.ew.state <;>
      simp_all [SignalInv, TrafficLight.tick, TrafficLight.setState,
        TrafficLight.getRandomDuration] <;>
      split <;>
      simp_all [TrafficLight.setState, TrafficLight.getRandomDuration]
  · intro i d
    unfold Intersection.toggle
    split <;>
      simp [SignalInv, TrafficLight.setState, TrafficLight.getRandomDuration]
  · intro i d
    simp [SignalInv, Intersection.setNsGreen, TrafficLight.setState,
      TrafficLight.getRandomDuration]
  · intro i d
    simp [SignalInv, Intersection.setEwGreen, TrafficLight.setState,
      TrafficLight.getRandomDuration]
  · intro i d
    simp [SignalInv, Intersection.setNsYellow, TrafficLight.setState,
      TrafficLight.getRandomDuration]
  · intro i d
    simp [SignalInv, Intersection.setEwYellow, TrafficLight.setState,
      TrafficLight.getRandomDuration]

/-- C2 witness: the invariant-preservation component of C2 applied to a
concrete intersection with its hypothesis discharged by evaluation. -/
theorem C2_signal_axis_exclusion_witness :
    SignalInv (Intersection.init 1 1 true 12 3) ∧
    SignalInv (Intersection.update (Intersection.init 1 1 true 12 3) 11 15) :=
  ⟨by decide, C2_signal_axis_exclusion.2.1 (Intersection.init 1 1 true 12 3) 11 15 (by decide)⟩

/-- A nonempty heap always pops. -/
theorem popMin_ne_none (e : Entry) (rest : List Entry) : popMin (e :: rest) ≠ none := by
  rw [popMin]
  cases h : popMin rest with
  | none => simp
  | some pr =>
    obtain ⟨m, r2⟩ := pr
    dsimp only
    split <;> simp

/-- Popping only removes one occurrence of the popped entry. -/
theorem popMin_perm :
    ∀ (l : List Entry) (m : Entry) (rest : List Entry),
      popMin l = some (m, rest) → l.Perm (m :: rest) := by
  intro l
  induction l with
  | nil => intro m rest h; simp [popMin] at h
  | cons e t ih =>
    intro m rest h
    rw [popMin] at h
    cases hp : popMin t with
    | none =>
      have ht : t = [] := by
        cases t with
        | nil => rfl
        | cons a b => exact absurd hp (popMin_ne_none a b)
      rw [hp] at h
      simp only [Option.some.injEq, Prod.mk.injEq] at h
      obtain ⟨rfl, rfl⟩ := h
      rw [ht]
    | some pr =>
      obtain ⟨m2, r2⟩ := pr
      rw [hp] at h
      dsimp only at h
      by_cases hlt : entryLtB m2 e = true
      · rw [if_pos hlt] at h
        simp only [Option.some.injEq, Prod.mk.injEq] at h
        obtain ⟨h1, h2⟩ := h
        subst h1
        subst h2
        exact ((ih _ r2 hp).cons e).trans (List.Perm.swap _ e r2)
      · rw [if_neg hlt] at h
        simp only [Option.some.injEq, Prod.mk.injEq] at h
        obtain ⟨h1, h2⟩ := h
        subst h1
        subst h2
        exact List.Perm.refl _

/-- The tuple order respects costs in its first component. -/
theorem entryLtB_cost_le {a b : Entry} (h : entryLtB a b = true) : a.1 ≤ b.1 := by
  unfold entryLtB at h
  split_ifs at h <;> omega

/-- A non-smaller entry has a cost at least as large. -/
theorem entryLtB_false_cost_le {a b : Entry} (h : entryLtB a b = false) : b.1 ≤ a.1 := by
  unfold entryLtB at h
  split_ifs at h <;> omega

/-- The popped entry has minimal cost in the heap. -/
theorem popMin_cost_min :
    ∀ (l : List Entry) (m : Entry) (rest : List Entry),
      popMin l = some (m, rest) → ∀ ent ∈ l, eCost m ≤ eCost ent := by
  intro l
  induction l with
  | nil => intro m rest h; simp [popMin] at h
  | cons e t ih =>
    intro m rest h ent hent
    rw [popMin] at h
    cases hp : popMin t with
    | none =>
      have ht : t = [] := by
        cases t with
        | nil => rfl
        | cons a b => exact absurd hp (popMin_ne_none a b)
      rw [hp] at h
      simp only [Option.some.injEq, Prod.mk.injEq] at h
      obtain ⟨rfl, rfl⟩ := h
      subst ht
      rcases List.mem_singleton.mp hent with rfl
      exact le_refl _
    | some pr =>
      obtain ⟨m2, r2⟩ := pr
      rw [hp] at h
      dsimp only at h
      by_cases hlt : entryLtB m2 e = true
      · rw [if_pos hlt] at h
        simp only [Option.some.injEq, Prod.mk.injEq] at h
        obtain ⟨h1, h2⟩ := h
        subst h1
        subst h2
        rcases List.mem_cons.mp hent with rfl | hmem
        · exact entryLtB_cost_le hlt
        · exact ih _ r2 hp ent hmem
      · rw [if_neg hlt] at h
        simp only [Option.some.injEq, Prod.mk.injEq] at h
        obtain ⟨h1, h2⟩ := h
        subst h1
        subst h2
        have hf : entryLtB m2 e = false := by simpa using hlt
        rcases List.mem_cons.mp hent with rfl | hmem
        · exact le_refl _
        · exact le_trans (entryLtB_false_cost_le hf) (ih _ r2 hp ent hmem)

/-- Splitting a list at the last occurrence of an element. -/
theorem exists_last_split {α : Type} [DecidableEq α] (a : α) :
    ∀ l : List α, a ∈ l → ∃ l1 l2, l = l1 ++ a :: l2 ∧ a ∉ l2 := by
  intro l
  induction l with
  | nil => intro h; simp at h
  | cons b t ih =>
    intro h
    by_cases hat : a ∈ t
    · obtain ⟨l1, l2, rfl, hno⟩ := ih hat
      exact ⟨b :: l1, l2, rfl, hno⟩
    · rcases List.mem_cons.mp h with rfl | hmem
      · exact ⟨[], t, rfl, hat⟩
      · exact absurd hmem hat

/-- A suffix of a valid route is a valid route. -/
theorem isPath_suffix (g : Grid) (l1 l2 : List Pos) (h : IsPath g (l1 ++ l2)) : IsPath g l2 :=
  (List.chain'_append.mp h).2.1

/-- Extending a valid route by one neighbor of its last cell. -/
theorem isPath_append_one (g : Grid) (l : List Pos) (v q : Pos) (hl : IsPath g l)
    (hlast : l.getLast? = some v) (hq : q ∈ getNeighbors g v.1 v.2) : IsPath g (l ++ [q]) := by
  refine List.chain'_append.mpr ⟨hl, List.chain'_singleton q, ?_⟩
  intro x hx y hy
  rw [hlast] at hx
  simp only [Option.mem_def, Option.some.injEq] at hx
  simp only [List.head?_cons, Option.mem_def, Option.some.injEq] at hy
  subst hx
  subst hy
  exact hq

/-- Characterization of the pushed entries. -/
theorem mem_pushesOf {g : Grid} {ent : Entry} {visited2 : List Pos} {e2 : Entry} :
    e2 ∈ pushesOf g ent visited2 ↔
      ∃ q, q ∈ getNeighbors g (eNode ent).1 (eNode ent).2 ∧ q ∉ visited2 ∧
        e2 = (eCost ent + 1, q.1, q.2, ePath ent ++ [q]) := by
  unfold pushesOf
  rw [List.mem_filterMap]
  constructor
  · rintro ⟨q, hq, heq⟩
    by_cases hv : q ∈ visited2
    · rw [if_pos hv] at heq
      exact absurd heq (by simp)
    · rw [if_neg hv] at heq
      simp only [Option.some.injEq] at heq
      exact ⟨q, hq, hv, heq.symm⟩
  · rintro ⟨q, hq, hv, rfl⟩
    exact ⟨q, hq, by rw [if_neg hv]⟩

/-- Entry paths are nonempty. -/
theorem ePath_ne_nil {g : Grid} {s : Pos} {ent : Entry} (h : EntryInv g s ent) :
    ePath ent ≠ [] := by
  have := h.2.2.2
  intro hnil
  rw [hnil] at this
  simp at this

/-- The heap invariant survives popping and pushing. -/
theorem heapInv_expand {g : Grid} {s : Pos} {heap rest : List Entry} {m : Entry}
    {visited2 : List Pos} (hinv : HeapInv g s heap) (hpop : popMin heap = some (m, rest)) :
    HeapInv g s (rest ++ pushesOf g m visited2) := by
  intro e2 he2
  rcases List.mem_append.mp he2 with hr | hpush
  · exact hinv e2 ((popMin_perm _ _ _ hpop).mem_iff.mpr (List.mem_cons_of_mem _ hr))
  · obtain ⟨q, hq, _, rfl⟩ := mem_pushesOf.mp hpush
    have hm : EntryInv g s m := hinv m ((popMin_perm _ _ _ hpop).mem_iff.mpr
      (List.mem_cons_self _ _))
    refine ⟨?_, ?_, ?_, ?_⟩
    · exact isPath_append_one g _ _ _ hm.1 hm.2.2.1 hq
    · show (ePath m ++ [q]).head? = some s
      rw [List.head?_append_of_ne_nil _ (ePath_ne_nil hm)]
      exact hm.2.1
    · show (ePath m ++ [q]).getLast? = some (q.1, q.2)
      rw [List.getLast?_append_cons]
      simp
    · show (ePath m ++ [q]).length = (eCost m + 1) + 1
      rw [List.length_append, hm.2.2.2]
      simp

/-- The heap invariant survives a visited skip. -/
theorem heapInv_skip {g : Grid} {s : Pos} {heap rest : List Entry} {m : Entry}
    (hinv : HeapInv g s heap) (hpop : popMin heap = some (m, rest)) : HeapInv g s rest :=
  fun e2 he2 => hinv e2 ((popMin_perm _ _ _ hpop).mem_iff.mpr (List.mem_cons_of_mem _ he2))

/-- The covering invariant survives skipping an already-visited pop. -/
theorem covers_skip {g : Grid} {s : Pos} {heap rest : List Entry} {m : Entry}
    {visited : List Pos} (hpop : popMin heap = some (m, rest)) (hv : eNode m ∈ visited)
    (hc : Covers g s heap visited) : Covers g s rest visited := by
  intro z l hz hpl hh hlast
  obtain ⟨ent, hent, l2, h1, h2, h3, h4, h5⟩ := hc z l hz hpl hh hlast
  have hhead : eNode ent ∈ l2 := List.mem_of_mem_head? (by rw [h2]; rfl)
  have hne : ent ≠ m := by
    intro he
    exact (h4 _ hhead) (he ▸ hv)
  have hmem2 : ent ∈ m :: rest := (popMin_perm _ _ _ hpop).mem_iff.mp hent
  rcases List.mem_cons.mp hmem2 with rfl | hr
  · exact absurd rfl hne
  · exact ⟨ent, hr, l2, h1, h2, h3, h4, h5⟩

/-- The covering invariant survives an expansion: either the covering
entry is untouched, or the covering continuation is rerouted through a
freshly pushed neighbor of the expanded node (cut at its last occurrence
on the continuation), paid for by the minimality of the popped cost. -/
theorem covers_expand {g : Grid} {s : Pos} {heap rest : List Entry} {m : Entry}
    {visited : List Pos} (hpop : popMin heap = some (m, rest))
    (hc : Covers g s heap visited) :
    Covers g s (rest ++ pushesOf g m (eNode m :: visited)) (eNode m :: visited) := by
  intro z l hz hpl hh hlast
  have hzv : z ∉ visited := fun hzz => hz (List.mem_cons_of_mem _ hzz)
  have hzm : z ≠ eNode m := by
    intro he
    exact hz (he ▸ List.mem_cons_self _ _)
  obtain ⟨ent, hent, l2, hP, hH, hL, hAvoid, hC⟩ := hc z l hzv hpl hh hlast
  have hmin : eCost m ≤ eCost ent := popMin_cost_min _ _ _ hpop ent hent
  by_cases hcase : eNode m ∈ l2
  · obtain ⟨l2a, l2b, heq, hnotin⟩ := exists_last_split _ _ hcase
    cases l2b with
    | nil =>
      exfalso
      rw [heq, List.getLast?_append_cons] at hL
      simp only [List.getLast?_singleton, Option.some.injEq] at hL
      exact hzm hL.symm
    | cons u l3 =>
      have hPl2 : IsPath g (eNode m :: u :: l3) := by
        rw [heq] at hP
        exact isPath_suffix g l2a _ hP
      have hu : u ∈ getNeighbors g (eNode m).1 (eNode m).2 := (List.chain'_cons.mp hPl2).1
      have humem : u ∈ l2 := by
        rw [heq]
        exact List.mem_append_right _ (List.mem_cons_of_mem _ (List.mem_cons_self _ _))
      have huv : u ∉ eNode m :: visited := by
        intro hmem
        rcases List.mem_cons.mp hmem with he | hvv
        · exact hnotin (he ▸ List.mem_cons_self u l3)
        · exact (hAvoid u humem) hvv
      refine ⟨(eCost m + 1, u.1, u.2, ePath m ++ [u]), ?_, u :: l3, ?_, ?_, ?_, ?_, ?_⟩
      · exact List.mem_append_right _ (mem_pushesOf.mpr ⟨u, hu, huv, rfl⟩)
      · exact hPl2.tail
      · show (u :: l3).head? = some (u.1, u.2)
        simp
      · rw [heq, List.getLast?_append_cons, List.getLast?_cons_cons] at hL
        exact hL
      · intro q hq hmem
        rcases List.mem_cons.mp hmem with he | hvv
        · exact hnotin (he ▸ hq)
        · refine (hAvoid q ?_) hvv
          rw [heq]
          exact List.mem_append_right _ (List.mem_cons_of_mem _ hq)
      · have hlen : l2.length = l2a.length + 1 + (u :: l3).length := by
          rw [heq]
          simp [List.length_append]
          omega
        show eCost (eCost m + 1, u.1, u.2, ePath m ++ [u]) + (u :: l3).length ≤ l.length
        have : eCost (eCost m + 1, u.1, u.2, ePath m ++ [u]) = eCost m + 1 := rfl
        rw [this]
        omega
  · have hhead : eNode ent ∈ l2 := List.mem_of_mem_head? (by rw [hH]; rfl)
    have hne : ent ≠ m := by
      intro he
      exact hcase (he ▸ hhead)
    have hmemr : ent ∈ rest := by
      have hmem2 : ent ∈ m :: rest := (popMin_perm _ _ _ hpop).mem_iff.mp hent
      rcases List.mem_cons.mp hmem2 with rfl | hr
      · exact absurd rfl hne
      · exact hr
    refine ⟨ent, List.mem_append_left _ hmemr, l2, hP, hH, hL, ?_, hC⟩
    intro q hq hmem
    rcases List.mem_cons.mp hmem with he | hvv
    · exact hcase (he ▸ hq)
    · exact (hAvoid q hq) hvv

/-- Core correctness of the search loop: under the invariants, a some p
result is a valid route from s to endP of minimal length, and a none
result means no route from s to endP exists. -/
theorem dijkstraAux_spec (g : Grid) (s endP : Pos) :
    ∀ (fuel : Nat) (heap : List Entry) (visited : List Pos),
      HeapInv g s heap → Covers g s heap visited → endP ∉ visited →
      ∀ r, dijkstraAux g endP fuel heap visited = some r →
        (∀ p, r = some p → IsPath g p ∧ p.head? = some s ∧ p.getLast? = some endP ∧
            ∀ l, IsPath g l → l.head? = some s → l.getLast? = some endP →
              p.length ≤ l.length) ∧
        (r = none →
          ∀ l, IsPath g l → l.head? = some s → l.getLast? = some endP → False) := by
  intro fuel
  induction fuel with
  | zero =>
    intro heap visited _ _ _ r hr
    simp [dijkstraAux] at hr
  | succ f ih =>
    intro heap visited hinv hcov hend r hr
    rw [dijkstraAux] at hr
    cases hpop : popMin heap with
    | none =>
      rw [hpop] at hr
      simp only [Option.some.injEq] at hr
      subst hr
      refine ⟨fun p hp => absurd hp (by simp), fun _ l hl hh hlast => ?_⟩
      obtain ⟨ent, hent, _⟩ := hcov endP l hend hl hh hlast
      have hnil : heap = [] := by
        cases heap with
        | nil => rfl
        | cons a b => exact absurd hpop (popMin_ne_none a b)
      rw [hnil] at hent
      simp at hent
    | some pr =>
      obtain ⟨m, rest⟩ := pr
      rw [hpop] at hr
      dsimp only at hr
      by_cases hme : eNode m = endP
      · rw [if_pos hme] at hr
        simp only [Option.some.injEq] at hr
        subst hr
        refine ⟨fun p hp => ?_, fun hcontra => by simp at hcontra⟩
        simp only [Option.some.injEq] at hp
        subst hp
        have hm : EntryInv g s m := hinv m ((popMin_perm _ _ _ hpop).mem_iff.mpr
          (List.mem_cons_self _ _))
        refine ⟨hm.1, hm.2.1, by rw [hm.2.2.1, hme], ?_⟩
        intro l hl hh hlast
        obtain ⟨ent, hent, l2, _hP, hH, _hL, _hAv, hc⟩ := hcov endP l hend hl hh hlast
        have hmin : eCost m ≤ eCost ent := popMin_cost_min _ _ _ hpop ent hent
        have hl2 : 1 ≤ l2.length := by
          cases l2 with
          | nil => simp at hH
          | cons a t => simp
        rw [hm.2.2.2]
        omega
      · rw [if_neg hme] at hr
        by_cases hmv : eNode m ∈ visited
        · rw [if_pos hmv] at hr
          exact ih rest visited (heapInv_skip hinv hpop) (covers_skip hpop hmv hcov) hend r hr
        · rw [if_neg hmv] at hr
          refine ih _ _ (heapInv_expand hinv hpop) (covers_expand hpop hcov) ?_ r hr
          intro hmem
          rcases List.mem_cons.mp hmem with he | hvv
          · exact hme he.symm
          · exact hend hvv

/-- Membership in get_neighbors gives bounds and passability. -/
theorem mem_getNeighbors_props {g : Grid} {x y : Int} {q : Pos}
    (h : q ∈ getNeighbors g x y) : inBox g q ∧ g.cell q ≠ GridCell.EMPTY := by
  unfold getNeighbors at h
  rw [List.mem_filterMap] at h
  obtain ⟨d, _, hd⟩ := h
  dsimp only at hd
  by_cases hcond : 0 ≤ x + d.1 ∧ x + d.1 < g.actualWidth ∧ 0 ≤ y + d.2 ∧
      y + d.2 < g.actualHeight ∧ g.cell (x + d.1, y + d.2) ≠ GridCell.EMPTY
  · rw [if_pos hcond] at hd
    simp only [Option.some.injEq] at hd
    subst hd
    exact ⟨⟨hcond.1, hcond.2.1, hcond.2.2.1, hcond.2.2.2.1⟩, hcond.2.2.2.2⟩
  · rw [if_neg hcond] at hd
    exact absurd hd (by simp)

/-- Bounds are preserved through pop and push. -/
theorem heapBounds_expand {g : Grid} {heap rest : List Entry} {m : Entry}
    {visited2 : List Pos} (hb : HeapBounds g heap) (hpop : popMin heap = some (m, rest)) :
    HeapBounds g (rest ++ pushesOf g m visited2) := by
  intro e2 he2
  rcases List.mem_append.mp he2 with hr | hpush
  · exact hb e2 ((popMin_perm _ _ _ hpop).mem_iff.mpr (List.mem_cons_of_mem _ hr))
  · obtain ⟨q, hq, _, rfl⟩ := mem_pushesOf.mp hpush
    exact (mem_getNeighbors_props hq).1

/-- At most four entries are pushed per expansion. -/
theorem pushesOf_length_le {g : Grid} (ent : Entry) (visited2 : List Pos) :
    (pushesOf g ent visited2).length ≤ 4 := by
  unfold pushesOf
  refine le_trans (List.length_filterMap_le _ _) ?_
  unfold getNeighbors
  exact le_trans (List.length_filterMap_le _ _) (le_of_eq rfl)

/-- Marking an in-bounds unvisited cell strictly shrinks the unvisited
in-bounds cell count. -/
theorem remCells_cons_lt {g : Grid} {p : Pos} {visited : List Pos} (hbox : inBox g p)
    (hnv : p ∉ visited) : remCells g (p :: visited) < remCells g visited := by
  unfold remCells
  have hmemS : p ∈ Finset.Icc (0 : Int) (g.actualWidth - 1) ×ˢ
      Finset.Icc (0 : Int) (g.actualHeight - 1) := by
    rw [Finset.mem_product, Finset.mem_Icc, Finset.mem_Icc]
    obtain ⟨h1, h2, h3, h4⟩ := hbox
    omega
  have hset : ((Finset.Icc (0 : Int) (g.actualWidth - 1) ×ˢ
        Finset.Icc (0 : Int) (g.actualHeight - 1)).filter (fun q => q ∉ p :: visited)) =
      ((Finset.Icc (0 : Int) (g.actualWidth - 1) ×ˢ
        Finset.Icc (0 : Int) (g.actualHeight - 1)).filter (fun q => q ∉ visited)).erase p := by
    ext q
    simp only [Finset.mem_filter, Finset.mem_erase, List.mem_cons]
    constructor
    · rintro ⟨hq, hnot⟩
      exact ⟨fun he => hnot (Or.inl he), hq, fun hvv => hnot (Or.inr hvv)⟩
    · rintro ⟨hne, hq, hnot⟩
      exact ⟨hq, fun hor => hor.elim hne hnot⟩
  rw [hset]
  have hmemF : p ∈ ((Finset.Icc (0 : Int) (g.actualWidth - 1) ×ˢ
      Finset.Icc (0 : Int) (g.actualHeight - 1)).filter (fun q => q ∉ visited)) :=
    Finset.mem_filter.mpr ⟨hmemS, hnv⟩
  exact Finset.card_erase_lt_of_mem hmemF

/-- With no visited cells, the cell count is width times height. -/
theorem remCells_nil (g : Grid) :
    remCells g [] = g.actualWidth.toNat * g.actualHeight.toNat := by
  unfold remCells
  rw [Finset.filter_true_of_mem (fun q _ => by simp)]
  rw [Finset.card_product, Int.card_Icc, Int.card_Icc]
  congr 1 <;> omega

/-- The loop terminates within its measure: heap length plus five times
the unvisited in-bounds cell count. -/
theorem dijkstraAux_terminates (g : Grid) (endP : Pos) :
    ∀ (fuel : Nat) (heap : List Entry) (visited : List Pos),
      HeapBounds g heap →
      heap.length + 5 * remCells g visited < fuel →
      dijkstraAux g endP fuel heap visited ≠ none := by
  intro fuel
  induction fuel with
  | zero => intro heap visited _ hm; omega
  | succ f ih =>
    intro heap visited hb hm
    rw [dijkstraAux]
    cases hpop : popMin heap with
    | none => simp
    | some pr =>
      obtain ⟨m, rest⟩ := pr
      dsimp only
      have hlen : heap.length = rest.length + 1 := by
        have := (popMin_perm _ _ _ hpop).length_eq
        simpa using this
      by_cases hme : eNode m = endP
      · rw [if_pos hme]
        simp
      · rw [if_neg hme]
        by_cases hmv : eNode m ∈ visited
        · rw [if_pos hmv]
          refine ih rest visited (fun e2 he2 => hb e2 ?_) (by omega)
          exact (popMin_perm _ _ _ hpop).mem_iff.mpr (List.mem_cons_of_mem _ he2)
        · rw [if_neg hmv]
          have hmbox : inBox g (eNode m) :=
            hb m ((popMin_perm _ _ _ hpop).mem_iff.mpr (List.mem_cons_self _ _))
          have hdec := remCells_cons_lt hmbox hmv
          have hplen : (pushesOf g m (eNode m :: visited)).length ≤ 4 :=
            pushesOf_length_le m _
          refine ih _ _ (heapBounds_expand hb hpop) ?_
          rw [List.length_append]
          omega

/-- For passable in-bounds endpoints, the search either returns a valid
minimal route or correctly reports that none exists. -/
theorem dijkstra_cases (g : Grid) (s e : Pos) (hsbox : inBox g s)
    (hsp : g.cell s ≠ GridCell.EMPTY) (hep : g.cell e ≠ GridCell.EMPTY) :
    (∃ p, dijkstra g s e = some p ∧ IsPath g p ∧ p.head? = some s ∧ p.getLast? = some e ∧
        ∀ l, IsPath g l → l.head? = some s → l.getLast? = some e → p.length ≤ l.length) ∨
    (dijkstra g s e = none ∧
      ∀ l, IsPath g l → l.head? = some s → l.getLast? = some e → False) := by
  have hinv0 : HeapInv g s [(0, s.1, s.2, [s])] := by
    intro ent hent
    rw [List.mem_singleton] at hent
    subst hent
    exact ⟨List.chain'_singleton s, rfl, rfl, rfl⟩
  have hcov0 : Covers g s [(0, s.1, s.2, [s])] [] := by
    intro z l hz hl hh hlast
    refine ⟨(0, s.1, s.2, [s]), List.mem_singleton.mpr rfl, l, hl, hh, hlast, ?_, ?_⟩
    · intro q _ hq
      simp at hq
    · show eCost (0, s.1, s.2, [s]) + l.length ≤ l.length
      have : eCost ((0 : Nat), s.1, s.2, [s]) = 0 := rfl
      omega
  have hb0 : HeapBounds g [(0, s.1, s.2, [s])] := by
    intro ent hent
    rw [List.mem_singleton] at hent
    subst hent
    exact hsbox
  have hmeas : List.length [((0 : Nat), s.1, s.2, [s])] + 5 * remCells g [] <
      5 * (g.actualWidth.toNat * g.actualHeight.toNat) + 2 := by
    rw [remCells_nil]
    have hone : List.length [((0 : Nat), s.1, s.2, [s])] = 1 := rfl
    omega
  have hterm := dijkstraAux_terminates g e
    (5 * (g.actualWidth.toNat * g.actualHeight.toNat) + 2) [(0, s.1, s.2, [s])] [] hb0 hmeas
  cases haux : dijkstraAux g e (5 * (g.actualWidth.toNat * g.actualHeight.toNat) + 2)
      [(0, s.1, s.2, [s])] [] with
  | none => exact absurd haux hterm
  | some r =>
    have hspec := dijkstraAux_spec g s e _ _ _ hinv0 hcov0 (by simp) r haux
    have hd : dijkstra g s e = r := by
      unfold dijkstra
      rw [if_neg hsp, if_neg hep, haux]
    cases r with
    | none => exact Or.inr ⟨hd, hspec.2 rfl⟩
    | some p =>
      obtain ⟨h1, h2, h3, h4⟩ := hspec.1 p rfl
      exact Or.inl ⟨p, hd, h1, h2, h3, h4⟩

/-- C3: for every grid and every in-bounds passable pair (start, end)
connected by some valid route, dijkstra returns a route that begins at
start, ends at end, steps only through get_neighbors links (in-bounds
passable 4-neighbors), and has minimal length among all such routes. -/
theorem C3_dijkstra_shortest_path (g : Grid) (s e : Pos) (hsbox : inBox g s)
    (hsp : g.cell s ≠ GridCell.EMPTY) (hep : g.cell e ≠ GridCell.EMPTY)
    (hconn : ∃ l, IsPath g l ∧ l.head? = some s ∧ l.getLast? = some e) :
    ∃ p, dijkstra g s e = some p ∧ IsPath g p ∧ p.head? = some s ∧ p.getLast? = some e ∧
      ∀ l, IsPath g l → l.head? = some s → l.getLast? = some e → p.length ≤ l.length := by
  rcases dijkstra_cases g s e hsbox hsp hep with hfound | ⟨_, hnone⟩
  · exact hfound
  · obtain ⟨l, hl, hh, hlast⟩ := hconn
    exact absurd (hnone l hl hh hlast) (fun h => h)

/-- C3 witness: on the concrete 3-by-1 road grid, the router applied to
(0, 0) and (2, 0). -/
theorem C3_dijkstra_shortest_path_witness :
    (inBox routerGridW (0, 0) ∧ routerGridW.cell (0, 0) ≠ GridCell.EMPTY ∧
      routerGridW.cell (2, 0) ≠ GridCell.EMPTY ∧
      (IsPath routerGridW [(0, 0), (1, 0), (2, 0)] ∧
        List.head? [((0 : Int), (0 : Int)), (1, 0), (2, 0)] = some (0, 0) ∧
        List.getLast? [((0 : Int), (0 : Int)), (1, 0), (2, 0)] = some (2, 0))) ∧
    (∃ p, dijkstra routerGridW (0, 0) (2, 0) = some p ∧ IsPath routerGridW p ∧
      p.head? = some (0, 0) ∧ p.getLast? = some (2, 0) ∧
      ∀ l, IsPath routerGridW l → l.head? = some (0, 0) → l.getLast? = some (2, 0) →
        p.length ≤ l.length) :=
  ⟨⟨by decide, by decide, by decide,
      List.Chain.cons (by decide) (List.Chain.cons (by decide) List.Chain.nil), rfl, rfl⟩,
    C3_dijkstra_shortest_path routerGridW (0, 0) (2, 0) (by decide) (by decide) (by decide)
      ⟨[(0, 0), (1, 0), (2, 0)],
        List.Chain.cons (by decide) (List.Chain.cons (by decide) List.Chain.nil), rfl, rfl⟩⟩

/-- C7: for every in-bounds pair, the router returns none (rather than
failing) whenever the start or end cell is a wall or the two cells are
disconnected; the embedded function is total and reads the grid without
modifying any state, mirroring the source, which only reads self.grid. -/
theorem C7_dijkstra_no_path_none (g : Grid) (s e : Pos) (hsbox : inBox g s)
    (_hebox : inBox g e)
    (h : g.cell s = GridCell.EMPTY ∨ g.cell e = GridCell.EMPTY ∨
      ¬ ∃ l, IsPath g l ∧ l.head? = some s ∧ l.getLast? = some e) :
    dijkstra g s e = none := by
  by_cases hsp : g.cell s = GridCell.EMPTY
  · unfold dijkstra
    rw [if_pos hsp]
  · by_cases hep : g.cell e = GridCell.EMPTY
    · unfold dijkstra
      rw [if_neg hsp, if_pos hep]
    · have hdisc : ¬ ∃ l, IsPath g l ∧ l.head? = some s ∧ l.getLast? = some e := by
        rcases h with h1 | h2 | h3
        · exact absurd h1 hsp
        · exact absurd h2 hep
        · exact h3
      rcases dijkstra_cases g s e hsbox hsp hep with ⟨p, _, hp1, hp2, hp3, _⟩ | ⟨hnone, _⟩
      · exact absurd ⟨p, hp1, hp2, hp3⟩ hdisc
      · exact hnone

/-- C7 witness: the router on a concrete grid whose start cell is a wall. -/
theorem C7_dijkstra_no_path_none_witness :
    (inBox routerGridW2 (1, 1) ∧ inBox routerGridW2 (0, 1) ∧
      routerGridW2.cell (1, 1) = GridCell.EMPTY) ∧
    dijkstra routerGridW2 (1, 1) (0, 1) = none :=
  ⟨⟨by decide, by decide, by decide⟩,
    C7_dijkstra_no_path_none routerGridW2 (1, 1) (0, 1) (by decide) (by decide)
      (Or.inl (by decide))⟩

/-- C10: for every passable cell c, routing from c to itself returns the
single-element path [c]: the start entry is popped first and already
satisfies the end test. -/
theorem C10_dijkstra_self_singleton (g : Grid) (c : Pos)
    (hp : g.cell c ≠ GridCell.EMPTY) : dijkstra g c c = some [c] := by
  unfold dijkstra
  rw [if_neg hp, if_neg hp]
  obtain ⟨f, hf⟩ : ∃ f, 5 * (g.actualWidth.toNat * g.actualHeight.toNat) + 2 = f + 1 :=
    ⟨5 * (g.actualWidth.toNat * g.actualHeight.toNat) + 1, by omega⟩
  rw [hf, dijkstraAux]
  have hpop : popMin [((0 : Nat), c.1, c.2, [c])] = some ((0, c.1, c.2, [c]), []) := rfl
  rw [hpop]
  dsimp only
  rw [if_pos (show eNode ((0 : Nat), c.1, c.2, [c]) = c from rfl)]
  rfl

/-- C10 witness: routing from the concrete road cell (1, 0) to itself. -/
theorem C10_dijkstra_self_singleton_witness :
    routerGridW.cell (1, 0) ≠ GridCell.EMPTY ∧
      dijkstra routerGridW (1, 0) (1, 0) = some [(1, 0)] :=
  ⟨by decide, C10_dijkstra_self_singleton routerGridW (1, 0) (by decide)⟩

end Traffic
